import Mathlib

set_option maxHeartbeats 1000000
set_option maxRecDepth 4000

/-! Shallow embedding of the procedural pattern-generation library
(`patterns.js`: `HatTiling`, `Rosette`, `Truchet`, and the shared geometry
helpers `lineIntersect` / `rotPt`) and of the scene machinery of its live
animation driver (`render-pattern.js`), together with theorems settling the
specification claims about them.

Modelling conventions:

* JavaScript double arithmetic is modelled by exact arithmetic: `ℚ` for all
  quantities the source computes by rational operations, and the quadratic
  field `ℚ(√3)` (`K3` below) for the Hat tiling, whose coordinates involve
  `Math.sqrt(3)` and sines/cosines of multiples of 60 degrees.
* 32-bit integer operations of the source (`|0`, `<<`, the signed `>>`,
  `^`, `>>> 0`) are modelled on `ℕ` as the unsigned 32-bit bit pattern,
  with explicit reduction `% 2 ^ 32` and an explicit signed reading
  `toInt32`.
* the unbounded `for` loops of the source (which terminate on the
  documented parameter domains) are modelled with an explicit `fuel`
  bound; each theorem below either holds for every fuel or instantiates a
  fuel large enough for the loop at hand.
* `Math.cos`, `Math.sin`, `Math.atan2`, `Math.hypot`, `Math.PI` and
  `Math.sqrt 3`, where they feed the Rosette construction, are modelled by
  an abstract numeric oracle (`TrigOracle`); every Rosette theorem holds
  for every oracle, in particular for the actual float approximations of
  the host.
* sorting by a `(a, b) => key(a) - key(b)` comparator over distances is
  modelled by a stable merge sort on the boolean relation
  `key a ≤ key b`; since `Math.hypot` is monotone in the squared distance,
  the comparison is performed on exact squared distances.
-/

/-! ## 32-bit integer helpers -/

/-- The signed reading of a 32-bit pattern (JavaScript `x | 0` on a value
already reduced modulo `2 ^ 32`). -/
def toInt32 (x : ℕ) : ℤ :=
  if x < 2 ^ 31 then (x : ℤ) else (x : ℤ) - 2 ^ 32

/-- The unsigned 32-bit pattern of an integer (JavaScript `ToUint32`, and
the pattern underlying `ToInt32`). -/
def toUInt32 (i : ℤ) : ℕ :=
  (i % 2 ^ 32).toNat

/-- JavaScript `x << n` on an `Int32`, viewed on unsigned patterns. -/
def shl32 (x n : ℕ) : ℕ :=
  (x * 2 ^ n) % 2 ^ 32

/-- JavaScript arithmetic shift `x >> n` on an `Int32` (floor division of
the signed value), viewed on unsigned patterns. -/
def asr32 (x n : ℕ) : ℕ :=
  toUInt32 ((toInt32 x).fdiv (2 ^ n))

/-- One step of the 32-bit xorshift recurrence of `Truchet.generate` and of
the driver `makeRng`: `x ^= x << 13; x ^= x >> 17; x ^= x << 5`. -/
def xorshift (x : ℕ) : ℕ :=
  let a := x ^^^ shl32 x 13
  let b := a ^^^ asr32 a 17
  b ^^^ shl32 b 5

/-- The value a PRNG state is turned into: `(rng >>> 0) / 0xFFFFFFFF`. -/
def randVal (x : ℕ) : ℚ :=
  (x : ℚ) / (2 ^ 32 - 1)

/-- The initial state of the driver `makeRng(seed)`: `let x = seed | 0 || 1`
(a zero seed is remapped to 1 by the `||`). -/
def makeRngInit (seed : ℤ) : ℕ :=
  let u := toUInt32 seed
  if u = 0 then 1 else u

/-! ## Rational helpers for JavaScript float operators -/

/-- Truncation toward zero, as JavaScript `Math.trunc` and the `%` operator
use it. -/
def jsTrunc (q : ℚ) : ℤ :=
  if 0 ≤ q then ⌊q⌋ else ⌈q⌉

/-- The JavaScript float remainder `x % y` (sign of the dividend). -/
def jsFmod (x y : ℚ) : ℚ :=
  x - y * (jsTrunc (x / y) : ℚ)

/-! ## GeometryKernel: `lineIntersect` -/

/-- A plane point `{x, y}`. -/
structure Pt where
  x : ℚ
  y : ℚ
deriving DecidableEq

/-- `lineIntersect(ax1, ay1, ax2, ay2, bx1, by1, bx2, by2)`: the
intersection of the two infinite lines through segments A and B, or `none`
when the 2x2 determinant is below the `1e-10` tolerance. -/
def lineIntersect (ax1 ay1 ax2 ay2 bx1 by1 bx2 by2 : ℚ) : Option Pt :=
  let bvx := ax2 - ax1
  let bvy := ay2 - ay1
  let dvx := bx2 - bx1
  let dvy := by2 - by1
  let denom := bvx * dvy - bvy * dvx
  if |denom| < 1 / 10 ^ 10 then none
  else
    let cx := bx1 - ax1
    let cy := by1 - ay1
    let t := (cx * dvy - cy * dvx) / denom
    some ⟨ax1 + t * bvx, ay1 + t * bvy⟩

/-! ## Truchet -/

/-- The construction parameters of `Truchet`. -/
structure Truchet where
  baseSize : ℚ
  minSize : ℚ
  splitProb : ℚ

/-- One `arc` draw command. Angles are stored in units of π: the source
writes `-Math.PI/2` where this model stores `-(1/2)`. -/
structure ArcCmd where
  cx : ℚ
  cy : ℚ
  r : ℚ
  startAngle : ℚ
  endAngle : ℚ
  ccw : Bool
  midX : ℚ
  midY : ℚ
deriving DecidableEq

/-- The two arcs of a type `A` terminal cell: bottom-left corner arc and
top-right corner arc. -/
def arcPairA (x y size : ℚ) : List ArcCmd :=
  let r := size / 2
  let midX := x + r
  let midY := y + r
  [{ cx := x, cy := y + size, r := r, startAngle := -(1 / 2), endAngle := 0,
     ccw := false, midX := midX, midY := midY },
   { cx := x + size, cy := y, r := r, startAngle := 1 / 2, endAngle := 1,
     ccw := false, midX := midX, midY := midY }]

/-- The two arcs of a type `B` terminal cell: top-left corner arc and
bottom-right corner arc. -/
def arcPairB (x y size : ℚ) : List ArcCmd :=
  let r := size / 2
  let midX := x + r
  let midY := y + r
  [{ cx := x, cy := y, r := r, startAngle := 0, endAngle := 1 / 2,
     ccw := false, midX := midX, midY := midY },
   { cx := x + size, cy := y + size, r := r, startAngle := 1, endAngle := 3 / 2,
     ccw := false, midX := midX, midY := midY }]

/-- `processCell(x, y, size)` of `Truchet.generate`, with the PRNG state
threaded explicitly and a fuel bound on the recursion depth (the source
recursion terminates whenever `minSize > 0`; an exhausted fuel emits
nothing).  The `&&` of `size > this.minSize && rand() < this.splitProb`
short-circuits: the split draw is consumed only when `size > minSize`. -/
def Truchet.processCell (t : Truchet) : ℕ → ℚ → ℚ → ℚ → ℕ → List ArcCmd × ℕ
  | 0, _, _, _, rng => ([], rng)
  | fuel + 1, x, y, size, rng =>
    let g := if t.minSize < size then
               let r1 := xorshift rng
               (decide (randVal r1 < t.splitProb), r1)
             else (false, rng)
    if g.1 then
      let half := size / 2
      let tl := t.processCell fuel x y half g.2
      let tr := t.processCell fuel (x + half) y half tl.2
      let bl := t.processCell fuel x (y + half) half tr.2
      let br := t.processCell fuel (x + half) (y + half) half bl.2
      (tl.1 ++ tr.1 ++ bl.1 ++ br.1, br.2)
    else
      let r2 := xorshift g.2
      (if randVal r2 < 1 / 2 then arcPairA x y size else arcPairB x y size, r2)

/-- The inner grid loop of `Truchet.generate`:
`for (let x = -pad; x < width + pad; x += baseSize) processCell(x, y, baseSize)`,
for an arbitrary cell processor `proc`. -/
def Truchet.gridX (t : Truchet) (proc : ℚ → ℚ → ℚ → ℕ → List ArcCmd × ℕ)
    (width y : ℚ) : ℕ → ℚ → ℕ → List ArcCmd × ℕ
  | 0, _, rng => ([], rng)
  | fuel + 1, x, rng =>
    if x < width + t.baseSize then
      let c := proc x y t.baseSize rng
      let rest := t.gridX proc width y fuel (x + t.baseSize) c.2
      (c.1 ++ rest.1, rest.2)
    else ([], rng)

/-- The outer grid loop of `Truchet.generate`:
`for (let y = -pad; y < height + pad; y += baseSize) ...`. -/
def Truchet.gridY (t : Truchet) (proc : ℚ → ℚ → ℚ → ℕ → List ArcCmd × ℕ)
    (width height : ℚ) (xfuel : ℕ) : ℕ → ℚ → ℕ → List ArcCmd × ℕ
  | 0, _, rng => ([], rng)
  | fuel + 1, y, rng =>
    if y < height + t.baseSize then
      let row := t.gridX proc width y xfuel (-t.baseSize) rng
      let rest := t.gridY proc width height xfuel fuel (y + t.baseSize) row.2
      (row.1 ++ rest.1, rest.2)
    else ([], rng)

/-- Squared distance of `(x, y)` from `(mx, my)`; `Math.hypot(x - mx, y - my)`
is its square root, so ordering by it is ordering by the hypot. -/
def sqDist (x y mx my : ℚ) : ℚ :=
  (x - mx) ^ 2 + (y - my) ^ 2

/-- `Truchet.generate(width, height, seed)`: run the grid of top-level
cells (one `baseSize` of overscan pad on each side), then sort the arc
commands by distance of their shared midpoint from the viewport center. -/
def Truchet.generate (t : Truchet) (width height : ℚ) (seed : ℤ) (fuel : ℕ) :
    List ArcCmd :=
  let rng0 := toUInt32 seed
  let run := t.gridY (fun x y size rng => t.processCell fuel x y size rng)
      width height fuel fuel (-t.baseSize) rng0
  let midX := width / 2
  let midY := height / 2
  run.1.mergeSort fun a b =>
    decide (sqDist a.midX a.midY midX midY ≤ sqDist b.midX b.midY midX midY)

/-- Modelled from the words of claim C1 (for its counterexample): a
subdivision step in which EVERY processed cell first consumes one PRNG
output for its split-vs-terminal draw before either recursing or emitting.
The source instead consumes no split draw at all for a cell with
`size ≤ minSize`, because `&&` short-circuits. -/
def Truchet.processCellSpec (t : Truchet) : ℕ → ℚ → ℚ → ℚ → ℕ → List ArcCmd × ℕ
  | 0, _, _, _, rng => ([], rng)
  | fuel + 1, x, y, size, rng =>
    let r1 := xorshift rng
    if t.minSize < size ∧ randVal r1 < t.splitProb then
      let half := size / 2
      let tl := t.processCellSpec fuel x y half r1
      let tr := t.processCellSpec fuel (x + half) y half tl.2
      let bl := t.processCellSpec fuel x (y + half) half tr.2
      let br := t.processCellSpec fuel (x + half) (y + half) half bl.2
      (tl.1 ++ tr.1 ++ bl.1 ++ br.1, br.2)
    else
      let r2 := xorshift r1
      (if randVal r2 < 1 / 2 then arcPairA x y size else arcPairB x y size, r2)

/-- `Truchet.generate` as claim C1 reads it, built on `processCellSpec`
instead of `processCell` (for the counterexample of C1). -/
def Truchet.generateSpec (t : Truchet) (width height : ℚ) (seed : ℤ)
    (fuel : ℕ) : List ArcCmd :=
  let rng0 := toUInt32 seed
  let run := t.gridY (fun x y size rng => t.processCellSpec fuel x y size rng)
      width height fuel fuel (-t.baseSize) rng0
  let midX := width / 2
  let midY := height / 2
  run.1.mergeSort fun a b =>
    decide (sqDist a.midX a.midY midX midY ≤ sqDist b.midX b.midY midX midY)

/-! ## Basic PRNG facts -/

theorem xorshift_zero : xorshift 0 = 0 := rfl

theorem randVal_zero : randVal 0 = 0 := by
  simp [randVal]

/-! ## Truchet: unfolding helpers -/

/-- The four recursive children of a split cell, in source order: top-left,
top-right, bottom-left, bottom-right, threading the PRNG state from one
child into the next. -/
def Truchet.splitChildren (t : Truchet) (fuel : ℕ) (x y half : ℚ) (r : ℕ) :
    List ArcCmd × ℕ :=
  let tl := t.processCell fuel x y half r
  let tr := t.processCell fuel (x + half) y half tl.2
  let bl := t.processCell fuel x (y + half) half tr.2
  let br := t.processCell fuel (x + half) (y + half) half bl.2
  (tl.1 ++ tr.1 ++ bl.1 ++ br.1, br.2)

theorem Truchet.processCell_split (t : Truchet) (fuel : ℕ) (x y size : ℚ)
    (rng : ℕ) (h : t.minSize < size)
    (hv : randVal (xorshift rng) < t.splitProb) :
    t.processCell (fuel + 1) x y size rng =
      t.splitChildren fuel x y (size / 2) (xorshift rng) := by
  simp only [Truchet.processCell, if_pos h, Truchet.splitChildren]
  rw [if_pos (by simpa using hv)]

theorem Truchet.processCell_noSplit (t : Truchet) (fuel : ℕ) (x y size : ℚ)
    (rng : ℕ) (h : t.minSize < size)
    (hv : ¬ randVal (xorshift rng) < t.splitProb) :
    t.processCell (fuel + 1) x y size rng =
      ((if randVal (xorshift (xorshift rng)) < 1 / 2 then arcPairA x y size
        else arcPairB x y size), xorshift (xorshift rng)) := by
  simp only [Truchet.processCell, if_pos h]
  rw [if_neg (by simpa using hv)]

theorem Truchet.processCell_term (t : Truchet) (fuel : ℕ) (x y size : ℚ)
    (rng : ℕ) (h : ¬ t.minSize < size) :
    t.processCell (fuel + 1) x y size rng =
      ((if randVal (xorshift rng) < 1 / 2 then arcPairA x y size
        else arcPairB x y size), xorshift rng) := by
  simp only [Truchet.processCell, if_neg h]
  rw [if_neg (by simp)]

/-! ## Truchet: claims C1 and C2 -/

/-- C1 (amended).  In `Truchet.generate`, a processed cell with
`size > minSize` consumes exactly one PRNG output for its split-vs-terminal
draw and then either recurses into its 4 children in the fixed order
top-left, top-right, bottom-left, bottom-right (threading the PRNG state
left to right, see `Truchet.splitChildren`), or emits its two arc commands
using one further draw; a cell with `size ≤ minSize` consumes no split draw
at all (the `&&` short-circuits) and draws once for its arc type; the
produced command list is a pure function of the 32-bit reading of the
seed. -/
theorem C1_truchet_split_draw_preorder :
    (∀ (t : Truchet) (fuel : ℕ) (x y size : ℚ) (rng : ℕ),
      t.minSize < size →
      t.processCell (fuel + 1) x y size rng =
        (if randVal (xorshift rng) < t.splitProb then
          t.splitChildren fuel x y (size / 2) (xorshift rng)
        else
          ((if randVal (xorshift (xorshift rng)) < 1 / 2 then arcPairA x y size
            else arcPairB x y size), xorshift (xorshift rng)))) ∧
    (∀ (t : Truchet) (fuel : ℕ) (x y size : ℚ) (rng : ℕ),
      ¬ t.minSize < size →
      t.processCell (fuel + 1) x y size rng =
        ((if randVal (xorshift rng) < 1 / 2 then arcPairA x y size
          else arcPairB x y size), xorshift rng)) ∧
    (∀ (t : Truchet) (w h : ℚ) (s₁ s₂ : ℤ) (fuel : ℕ),
      toUInt32 s₁ = toUInt32 s₂ →
      t.generate w h s₁ fuel = t.generate w h s₂ fuel) := by
  refine ⟨?_, ?_, ?_⟩
  · intro t fuel x y size rng h
    by_cases hv : randVal (xorshift rng) < t.splitProb
    · rw [t.processCell_split fuel x y size rng h hv, if_pos hv]
    · rw [t.processCell_noSplit fuel x y size rng h hv, if_neg hv]
  · intro t fuel x y size rng h
    exact t.processCell_term fuel x y size rng h
  · intro t w h s₁ s₂ fuel hs
    simp only [Truchet.generate, hs]

/-- Witness for C1: the terminal-forced case at a concrete cell; with
`minSize = baseSize = 60` and state 1, the cell consumes a single draw,
whose value selects the arc type. -/
theorem C1_witness :
    Truchet.processCell ⟨60, 60, 1⟩ 1 0 0 60 1 =
      ((if randVal (xorshift 1) < 1 / 2 then arcPairA 0 0 60
        else arcPairB 0 0 60), xorshift 1) :=
  C1_truchet_split_draw_preorder.2.1 ⟨60, 60, 1⟩ 0 0 0 60 1 (by norm_num)

/-- Counterexample for C1 as stated: read so that EVERY processed cell
consumes one split-vs-terminal draw before recursing or emitting
(`Truchet.generateSpec`), the claim disagrees with the code on a concrete
run, because cells with `size ≤ minSize` never consume a split draw: with
`baseSize = minSize = 60`, `splitProb = 1`, seed 1 and a 0-by-0 viewport
the two readings produce different arc type sequences (2 versus 1 top-left
corner arcs). -/
theorem C1_counterexample :
    Truchet.generateSpec ⟨60, 60, 1⟩ 0 0 1 4 ≠
      Truchet.generate ⟨60, 60, 1⟩ 0 0 1 4 := by
  intro heq
  have hs : (Truchet.generateSpec ⟨60, 60, 1⟩ 0 0 1 4).countP
      (fun c => decide (c.startAngle = 0)) = 2 := by
    simp only [Truchet.generateSpec]
    rw [(List.mergeSort_perm _ _).countP_eq]
    with_unfolding_all decide
  have hc : (Truchet.generate ⟨60, 60, 1⟩ 0 0 1 4).countP
      (fun c => decide (c.startAngle = 0)) = 1 := by
    simp only [Truchet.generate]
    rw [(List.mergeSort_perm _ _).countP_eq]
    with_unfolding_all decide
  rw [heq, hc] at hs
  exact absurd hs (by decide)

/-- C2 (amended).  For `Truchet({baseSize:60, minSize:60, splitProb:1})`
and `generate(60, 60, seed 1)`: since `minSize = baseSize`, the split
guard `size > minSize` is false for every top-level cell even though
`splitProb = 1`, so every processed grid cell is terminal; the grid runs
over 3 x 3 cells (the single covering cell plus one `baseSize` cell of
overscan pad on each side), producing exactly 18 arc commands.  In
general a misconfigured `minSize ≥ baseSize` yields immediate
termination of every top-level cell (two arcs, no recursion) rather
than an error. -/
theorem C2_truchet_min_guard :
    (Truchet.generate ⟨60, 60, 1⟩ 60 60 1 8).length = 18 ∧
    (∀ (t : Truchet) (fuel : ℕ) (x y : ℚ) (rng : ℕ),
      t.baseSize ≤ t.minSize →
      t.processCell (fuel + 1) x y t.baseSize rng =
        ((if randVal (xorshift rng) < 1 / 2 then arcPairA x y t.baseSize
          else arcPairB x y t.baseSize), xorshift rng) ∧
      (t.processCell (fuel + 1) x y t.baseSize rng).1.length = 2) := by
  constructor
  · simp only [Truchet.generate]
    rw [List.length_mergeSort]
    with_unfolding_all decide
  · intro t fuel x y rng hle
    have h := t.processCell_term fuel x y t.baseSize rng (not_lt.mpr hle)
    refine ⟨h, ?_⟩
    rw [h]
    show (if randVal (xorshift rng) < 1 / 2 then arcPairA x y t.baseSize
      else arcPairB x y t.baseSize).length = 2
    by_cases hp : randVal (xorshift rng) < 1 / 2
    · rw [if_pos hp]; rfl
    · rw [if_neg hp]; rfl

/-- Counterexample for C2 as stated: the scenario run returns 18 arc
commands (9 terminal cells), not 2 (1 terminal cell). -/
theorem C2_counterexample :
    (Truchet.generate ⟨60, 60, 1⟩ 60 60 1 8).length = 18 ∧
    (Truchet.generate ⟨60, 60, 1⟩ 60 60 1 8).length ≠ 2 := by
  have h : (Truchet.generate ⟨60, 60, 1⟩ 60 60 1 8).length = 18 := by
    simp only [Truchet.generate]
    rw [List.length_mergeSort]
    with_unfolding_all decide
  exact ⟨h, by rw [h]; decide⟩

/-! ## Truchet: the fixed point at seed 0 (claim C10) -/

/-- The emitted-arc invariant that holds throughout a seed-0 run: every arc
comes from a cell that was subdivided all the way down to `size ≤ minSize`
(so its radius is at most `minSize / 2`) and is one of the two type `A`
arcs (start angle `-π/2` or `π/2`, in units of π). -/
def seedZeroArc (t : Truchet) (c : ArcCmd) : Prop :=
  2 * c.r ≤ t.minSize ∧ (c.startAngle = -(1 / 2) ∨ c.startAngle = 1 / 2)

theorem Truchet.processCell_zero_inv (t : Truchet) (hp : 0 < t.splitProb) :
    ∀ (fuel : ℕ) (x y size : ℚ),
      (t.processCell fuel x y size 0).2 = 0 ∧
      ∀ c ∈ (t.processCell fuel x y size 0).1, seedZeroArc t c := by
  intro fuel
  induction fuel with
  | zero =>
    intro x y size
    exact ⟨rfl, by intro c hc; simp [Truchet.processCell] at hc⟩
  | succ n ih =>
    intro x y size
    have hv0 : randVal (xorshift 0) = 0 := by rw [xorshift_zero, randVal_zero]
    by_cases h : t.minSize < size
    · have hv : randVal (xorshift 0) < t.splitProb := by rw [hv0]; exact hp
      rw [t.processCell_split n x y size 0 h hv, xorshift_zero]
      simp only [Truchet.splitChildren]
      obtain ⟨s1, m1⟩ := ih x y (size / 2)
      rw [s1]
      obtain ⟨s2, m2⟩ := ih (x + size / 2) y (size / 2)
      rw [s2]
      obtain ⟨s3, m3⟩ := ih x (y + size / 2) (size / 2)
      rw [s3]
      obtain ⟨s4, m4⟩ := ih (x + size / 2) (y + size / 2) (size / 2)
      refine ⟨s4, ?_⟩
      intro c hc
      rcases List.mem_append.mp hc with hc | hc4
      · rcases List.mem_append.mp hc with hc | hc3
        · rcases List.mem_append.mp hc with hc1 | hc2
          · exact m1 c hc1
          · exact m2 c hc2
        · exact m3 c hc3
      · exact m4 c hc4
    · have hv2 : randVal (xorshift 0) < 1 / 2 := by rw [hv0]; norm_num
      rw [t.processCell_term n x y size 0 h, if_pos hv2]
      refine ⟨xorshift_zero, ?_⟩
      intro c hc
      have hsize : size ≤ t.minSize := not_lt.mp h
      simp only [arcPairA, List.mem_cons, List.not_mem_nil, or_false] at hc
      rcases hc with rfl | rfl
      · exact ⟨by show 2 * (size / 2) ≤ t.minSize; linarith, Or.inl rfl⟩
      · exact ⟨by show 2 * (size / 2) ≤ t.minSize; linarith, Or.inr rfl⟩

theorem Truchet.processCell_zero_congr (t u : Truchet)
    (hmin : t.minSize = u.minSize) (hpt : 0 < t.splitProb)
    (hpu : 0 < u.splitProb) :
    ∀ (fuel : ℕ) (x y size : ℚ),
      t.processCell fuel x y size 0 = u.processCell fuel x y size 0 := by
  intro fuel
  induction fuel with
  | zero => intro x y size; rfl
  | succ n ih =>
    intro x y size
    have hv0 : randVal (xorshift 0) = 0 := by rw [xorshift_zero, randVal_zero]
    by_cases h : t.minSize < size
    · have hu : u.minSize < size := hmin ▸ h
      rw [t.processCell_split n x y size 0 h (by rw [hv0]; exact hpt),
        u.processCell_split n x y size 0 hu (by rw [hv0]; exact hpu),
        xorshift_zero]
      simp only [Truchet.splitChildren]
      rw [(t.processCell_zero_inv hpt n x y (size / 2)).1,
        (t.processCell_zero_inv hpt n (x + size / 2) y (size / 2)).1,
        (t.processCell_zero_inv hpt n x (y + size / 2) (size / 2)).1,
        (u.processCell_zero_inv hpu n x y (size / 2)).1,
        (u.processCell_zero_inv hpu n (x + size / 2) y (size / 2)).1,
        (u.processCell_zero_inv hpu n x (y + size / 2) (size / 2)).1,
        ih x y (size / 2), ih (x + size / 2) y (size / 2),
        ih x (y + size / 2) (size / 2),
        ih (x + size / 2) (y + size / 2) (size / 2)]
    · have hu : ¬ u.minSize < size := hmin ▸ h
      rw [t.processCell_term n x y size 0 h, u.processCell_term n x y size 0 hu]

theorem Truchet.gridX_zero_inv (t : Truchet) (hp : 0 < t.splitProb)
    (cf : ℕ) (w yy : ℚ) :
    ∀ (fuel : ℕ) (x : ℚ),
      (t.gridX (fun a b s r => t.processCell cf a b s r) w yy fuel x 0).2 = 0 ∧
      ∀ c ∈ (t.gridX (fun a b s r => t.processCell cf a b s r) w yy fuel x 0).1,
        seedZeroArc t c := by
  intro fuel
  induction fuel with
  | zero =>
    intro x
    exact ⟨rfl, by intro c hc; simp [Truchet.gridX] at hc⟩
  | succ n ih =>
    intro x
    by_cases h : x < w + t.baseSize
    · simp only [Truchet.gridX, if_pos h]
      rw [(t.processCell_zero_inv hp cf x yy t.baseSize).1]
      obtain ⟨s2, m2⟩ := ih (x + t.baseSize)
      refine ⟨s2, ?_⟩
      intro c hc
      rcases List.mem_append.mp hc with hc1 | hc2
      · exact (t.processCell_zero_inv hp cf x yy t.baseSize).2 c hc1
      · exact m2 c hc2
    · refine ⟨?_, ?_⟩
      · simp [Truchet.gridX, h]
      · intro c hc
        simp [Truchet.gridX, h] at hc

theorem Truchet.gridY_zero_inv (t : Truchet) (hp : 0 < t.splitProb)
    (cf xf : ℕ) (w hh : ℚ) :
    ∀ (fuel : ℕ) (y : ℚ),
      (t.gridY (fun a b s r => t.processCell cf a b s r) w hh xf fuel y 0).2 = 0 ∧
      ∀ c ∈ (t.gridY (fun a b s r => t.processCell cf a b s r) w hh xf fuel y 0).1,
        seedZeroArc t c := by
  intro fuel
  induction fuel with
  | zero =>
    intro y
    exact ⟨rfl, by intro c hc; simp [Truchet.gridY] at hc⟩
  | succ n ih =>
    intro y
    by_cases h : y < hh + t.baseSize
    · simp only [Truchet.gridY, if_pos h]
      rw [(t.gridX_zero_inv hp cf w y xf (-t.baseSize)).1]
      obtain ⟨s2, m2⟩ := ih (y + t.baseSize)
      refine ⟨s2, ?_⟩
      intro c hc
      rcases List.mem_append.mp hc with hc1 | hc2
      · exact (t.gridX_zero_inv hp cf w y xf (-t.baseSize)).2 c hc1
      · exact m2 c hc2
    · refine ⟨?_, ?_⟩
      · simp [Truchet.gridY, h]
      · intro c hc
        simp [Truchet.gridY, h] at hc

theorem Truchet.gridX_zero_congr (t u : Truchet) (hbase : t.baseSize = u.baseSize)
    (hmin : t.minSize = u.minSize) (hpt : 0 < t.splitProb)
    (hpu : 0 < u.splitProb) (cf : ℕ) (w yy : ℚ) :
    ∀ (fuel : ℕ) (x : ℚ),
      t.gridX (fun a b s r => t.processCell cf a b s r) w yy fuel x 0 =
      u.gridX (fun a b s r => u.processCell cf a b s r) w yy fuel x 0 := by
  intro fuel
  induction fuel with
  | zero =>
    intro x
    show (([] : List ArcCmd), (0 : ℕ)) = (([] : List ArcCmd), (0 : ℕ))
    rfl
  | succ n ih =>
    intro x
    by_cases h : x < w + t.baseSize
    · have hu : x < w + u.baseSize := hbase ▸ h
      simp only [Truchet.gridX, if_pos h, if_pos hu]
      rw [(t.processCell_zero_inv hpt cf x yy t.baseSize).1,
        (u.processCell_zero_inv hpu cf x yy u.baseSize).1,
        ← hbase, t.processCell_zero_congr u hmin hpt hpu cf x yy t.baseSize,
        ih (x + t.baseSize)]
    · have hu : ¬ x < w + u.baseSize := hbase ▸ h
      simp only [Truchet.gridX, if_neg h, if_neg hu]

theorem Truchet.gridY_zero_congr (t u : Truchet) (hbase : t.baseSize = u.baseSize)
    (hmin : t.minSize = u.minSize) (hpt : 0 < t.splitProb)
    (hpu : 0 < u.splitProb) (cf xf : ℕ) (w hh : ℚ) :
    ∀ (fuel : ℕ) (y : ℚ),
      t.gridY (fun a b s r => t.processCell cf a b s r) w hh xf fuel y 0 =
      u.gridY (fun a b s r => u.processCell cf a b s r) w hh xf fuel y 0 := by
  intro fuel
  induction fuel with
  | zero =>
    intro y
    show (([] : List ArcCmd), (0 : ℕ)) = (([] : List ArcCmd), (0 : ℕ))
    rfl
  | succ n ih =>
    intro y
    by_cases h : y < hh + t.baseSize
    · have hu : y < hh + u.baseSize := hbase ▸ h
      simp only [Truchet.gridY, if_pos h, if_pos hu]
      rw [(t.gridX_zero_inv hpt cf w y xf (-t.baseSize)).1,
        (u.gridX_zero_inv hpu cf w y xf (-u.baseSize)).1,
        show -u.baseSize = -t.baseSize by rw [hbase],
        t.gridX_zero_congr u hbase hmin hpt hpu cf w y xf (-t.baseSize),
        ← hbase, ih (y + t.baseSize)]
    · have hu : ¬ y < hh + u.baseSize := hbase ▸ h
      simp only [Truchet.gridY, if_neg h, if_neg hu]

/-- C10.  For seed 0, the xorshift state inside `Truchet.generate` is the
fixed point 0, so every internal `rand()` returns 0; hence for any
`splitProb > 0` every cell with `size > minSize` subdivides all the way
down to cells of `size ≤ minSize` (every emitted arc satisfies
`2 r ≤ minSize`), every terminal cell emits the type `A` arc pair (never
type `B`), and the seed-0 output does not depend on the exact value of a
positive `splitProb` — unlike the driver `makeRng`, which remaps seed 0
to 1. -/
theorem C10_truchet_seed_zero :
    (xorshift 0 = 0 ∧ randVal 0 = 0 ∧ makeRngInit 0 = 1 ∧ toUInt32 0 = 0) ∧
    (∀ (t u : Truchet) (w h : ℚ) (fuel : ℕ),
      t.baseSize = u.baseSize → t.minSize = u.minSize →
      0 < t.splitProb → 0 < u.splitProb →
      t.generate w h 0 fuel = u.generate w h 0 fuel) ∧
    (∀ (t : Truchet) (w h : ℚ) (fuel : ℕ), 0 < t.splitProb →
      ∀ c ∈ t.generate w h 0 fuel, seedZeroArc t c) := by
  refine ⟨⟨rfl, randVal_zero, rfl, rfl⟩, ?_, ?_⟩
  · intro t u w h fuel hbase hmin hpt hpu
    simp only [Truchet.generate]
    rw [show toUInt32 0 = 0 from rfl,
      t.gridY_zero_congr u hbase hmin hpt hpu fuel fuel w h fuel (-t.baseSize),
      hbase]
  · intro t w h fuel hp c hc
    simp only [Truchet.generate] at hc
    rw [show toUInt32 0 = 0 from rfl] at hc
    exact (t.gridY_zero_inv hp fuel fuel w h fuel (-t.baseSize)).2 c
      (List.mem_mergeSort.mp hc)

/-- Witness for C10: two Truchet instances differing only in their
(positive) split probabilities generate identical seed-0 output. -/
theorem C10_witness :
    Truchet.generate ⟨60, 30, 1⟩ 10 10 0 6 =
      Truchet.generate ⟨60, 30, 1 / 2⟩ 10 10 0 6 :=
  C10_truchet_seed_zero.2.1 ⟨60, 30, 1⟩ ⟨60, 30, 1 / 2⟩ 10 10 6 rfl rfl
    (by norm_num) (by norm_num)

/-! ## GeometryKernel: claim C4 -/

/-- C4.  `lineIntersect` returns `none` exactly when the absolute value of
the 2x2 determinant is below the fixed `1e-10` tolerance; otherwise it
returns the intersection point of the two infinite lines through the given
segment endpoints — the returned point satisfies both line equations
(stated as vanishing cross products with each direction vector), without
clamping to segment bounds; in particular two parallel segments
(determinant exactly zero) yield `none`. -/
theorem C4_lineIntersect :
    ∀ (ax1 ay1 ax2 ay2 bx1 by1 bx2 by2 : ℚ),
      (lineIntersect ax1 ay1 ax2 ay2 bx1 by1 bx2 by2 = none ↔
        |(ax2 - ax1) * (by2 - by1) - (ay2 - ay1) * (bx2 - bx1)| < 1 / 10 ^ 10) ∧
      (∀ p, lineIntersect ax1 ay1 ax2 ay2 bx1 by1 bx2 by2 = some p →
        (p.x - ax1) * (ay2 - ay1) - (p.y - ay1) * (ax2 - ax1) = 0 ∧
        (p.x - bx1) * (by2 - by1) - (p.y - by1) * (bx2 - bx1) = 0) ∧
      ((ax2 - ax1) * (by2 - by1) - (ay2 - ay1) * (bx2 - bx1) = 0 →
        lineIntersect ax1 ay1 ax2 ay2 bx1 by1 bx2 by2 = none) := by
  intro ax1 ay1 ax2 ay2 bx1 by1 bx2 by2
  by_cases hd : |(ax2 - ax1) * (by2 - by1) - (ay2 - ay1) * (bx2 - bx1)| <
      1 / 10 ^ 10
  · have hnone : lineIntersect ax1 ay1 ax2 ay2 bx1 by1 bx2 by2 = none := by
      simp only [lineIntersect]
      rw [if_pos hd]
    refine ⟨iff_of_true hnone hd, ?_, fun _ => hnone⟩
    intro p hp
    rw [hnone] at hp
    simp at hp
  · have hne : (ax2 - ax1) * (by2 - by1) - (ay2 - ay1) * (bx2 - bx1) ≠ 0 := by
      intro h0
      exact hd (by rw [h0]; norm_num)
    have hsome : lineIntersect ax1 ay1 ax2 ay2 bx1 by1 bx2 by2 ≠ none := by
      simp only [lineIntersect]
      rw [if_neg hd]
      simp
    refine ⟨iff_of_false hsome hd, ?_, ?_⟩
    · intro p hp
      simp only [lineIntersect] at hp
      rw [if_neg hd] at hp
      have hp2 := (Option.some.inj hp).symm
      subst hp2
      constructor
      · dsimp only
        ring
      · dsimp only
        field_simp
        ring
    · intro h0
      exact absurd (by rw [h0]; norm_num) hd

/-- Witness for C4: the horizontal segment (0,0)-(1,0) and the vertical
segment (3,1)-(3,2) meet at (3, 0), outside both segments (no clamping);
the parallel pair (0,0)-(1,0) and (0,1)-(1,1) yields `none`. -/
theorem C4_witness :
    lineIntersect 0 0 1 0 3 1 3 2 = some ⟨3, 0⟩ ∧
    (((3 : ℚ) - 0) * (0 - 0) - ((0 : ℚ) - 0) * (1 - 0) = 0 ∧
      ((3 : ℚ) - 3) * (2 - 1) - ((0 : ℚ) - 1) * (3 - 3) = 0) ∧
    lineIntersect 0 0 1 0 0 1 1 1 = none := by
  have h1 : lineIntersect 0 0 1 0 3 1 3 2 = some ⟨3, 0⟩ := by
    with_unfolding_all decide
  refine ⟨h1, (C4_lineIntersect 0 0 1 0 3 1 3 2).2.1 ⟨3, 0⟩ h1, ?_⟩
  exact (C4_lineIntersect 0 0 1 0 0 1 1 1).2.2 (by norm_num)

/-! ## PatternAnimationDriver: scenes (claim C8) -/

/-- One drawable unit as the spawn machinery of the driver sees it: its
payload (geometry and style, irrelevant to the scene claims) plus the
`born` frame marker, `-1` until the unit is spawned (set by `styleUnit`,
line 79). -/
structure SceneUnit (α : Type) where
  payload : α
  born : ℤ
deriving DecidableEq

/-- The scene record returned by `buildScene` (lines 162-163), keeping the
animation-state fields the claims inspect together with the unit list.
The presentation-only `type` tag is omitted. -/
structure Scene (α : Type) where
  tiles : List (SceneUnit α)
  tilesPerTick : ℕ
  holdLimit : ℕ
  breatheSpeed : ℚ
  spawnIdx : ℕ
  done : Bool
  holdAge : ℕ
  alpha : ℚ
  fadingOut : Bool
deriving DecidableEq

/-- `buildScene` (lines 161-163): the freshly built scene.  The randomized
geometry, styles and sort order are abstracted into the prepared unit list
`units`; every unit starts with `born = -1`. -/
def mkScene {α : Type} (units : List α) (tilesPerTick holdLimit : ℕ)
    (breatheSpeed : ℚ) : Scene α :=
  { tiles := units.map fun u => ⟨u, -1⟩,
    tilesPerTick := tilesPerTick, holdLimit := holdLimit,
    breatheSpeed := breatheSpeed,
    spawnIdx := 0, done := false, holdAge := 0, alpha := 0,
    fadingOut := false }

/-- The spawn loop of one driver frame (lines 265-268):
`for (let i = 0; i < tilesPerTick; i++) { if (spawnIdx >= tiles.length)
{ done = true; break; } tiles[spawnIdx++].born = frame; }`. -/
def spawnLoop {α : Type} (frame : ℤ) : ℕ → Scene α → Scene α
  | 0, s => s
  | k + 1, s =>
    if s.tiles.length ≤ s.spawnIdx then { s with done := true }
    else
      spawnLoop frame k
        { s with
          tiles := s.tiles.modify (fun u => { u with born := frame }) s.spawnIdx,
          spawnIdx := s.spawnIdx + 1 }

/-- The spawn-or-hold section of one driver frame (lines 263-272): while
the scene is not done, spawn up to `tilesPerTick` units; once done, age
the hold counter (the `triggerNewScene` side effect concerns the staged
next scene, not this scene record). -/
def sceneFrame {α : Type} (frame : ℤ) (s : Scene α) : Scene α :=
  if s.done then { s with holdAge := s.holdAge + 1 }
  else spawnLoop frame s.tilesPerTick s

/-- `n` driver frames applied to a scene (frame counter threaded as the
source `frame++` does; the frame number never feeds back into the spawn
logic). -/
def advanceScene {α : Type} (s : Scene α) : ℕ → Scene α
  | 0 => s
  | n + 1 => sceneFrame ((n : ℤ) + 1) (advanceScene s n)

theorem spawnLoop_length {α : Type} (frame : ℤ) :
    ∀ (k : ℕ) (s : Scene α),
      (spawnLoop frame k s).tiles.length = s.tiles.length := by
  intro k
  induction k with
  | zero => intro s; rfl
  | succ n ih =>
    intro s
    by_cases h : s.tiles.length ≤ s.spawnIdx
    · simp [spawnLoop, h]
    · simp only [spawnLoop, if_neg h]
      rw [ih]
      simp [List.length_modify]

theorem spawnLoop_spawnIdx_le {α : Type} (frame : ℤ) :
    ∀ (k : ℕ) (s : Scene α),
      s.spawnIdx ≤ (spawnLoop frame k s).spawnIdx := by
  intro k
  induction k with
  | zero => intro s; exact le_rfl
  | succ n ih =>
    intro s
    by_cases h : s.tiles.length ≤ s.spawnIdx
    · simp [spawnLoop, h]
    · simp only [spawnLoop, if_neg h]
      have h2 := ih { s with
        tiles := s.tiles.modify (fun u => { u with born := frame }) s.spawnIdx,
        spawnIdx := s.spawnIdx + 1 }
      exact le_trans (Nat.le_succ _) h2

theorem spawnLoop_spawnIdx_bound {α : Type} (frame : ℤ) :
    ∀ (k : ℕ) (s : Scene α), s.spawnIdx ≤ s.tiles.length →
      (spawnLoop frame k s).spawnIdx ≤ s.tiles.length := by
  intro k
  induction k with
  | zero => intro s hs; exact hs
  | succ n ih =>
    intro s hs
    by_cases h : s.tiles.length ≤ s.spawnIdx
    · simp only [spawnLoop, if_pos h]
      exact hs
    · simp only [spawnLoop, if_neg h]
      have harg : s.spawnIdx + 1 ≤
          (s.tiles.modify (fun u => { u with born := frame }) s.spawnIdx).length := by
        rw [List.length_modify]
        omega
      have h2 := ih { s with
        tiles := s.tiles.modify (fun u => { u with born := frame }) s.spawnIdx,
        spawnIdx := s.spawnIdx + 1 } harg
      simpa [List.length_modify] using h2

theorem spawnLoop_done_mono {α : Type} (frame : ℤ) :
    ∀ (k : ℕ) (s : Scene α), s.done = true →
      (spawnLoop frame k s).done = true := by
  intro k
  induction k with
  | zero => intro s hs; exact hs
  | succ n ih =>
    intro s hs
    by_cases h : s.tiles.length ≤ s.spawnIdx
    · simp [spawnLoop, h]
    · simp only [spawnLoop, if_neg h]
      exact ih _ hs

theorem spawnLoop_progress {α : Type} (frame : ℤ) :
    ∀ (k : ℕ) (s : Scene α), (spawnLoop frame k s).done = false →
      (spawnLoop frame k s).spawnIdx = s.spawnIdx + k ∧
      (spawnLoop frame k s).done = s.done := by
  intro k
  induction k with
  | zero => intro s _; exact ⟨rfl, rfl⟩
  | succ n ih =>
    intro s hs
    by_cases h : s.tiles.length ≤ s.spawnIdx
    · rw [spawnLoop, if_pos h] at hs
      simp at hs
    · rw [spawnLoop, if_neg h] at hs ⊢
      obtain ⟨h1, h2⟩ := ih _ hs
      refine ⟨?_, h2⟩
      rw [h1]
      show s.spawnIdx + 1 + n = s.spawnIdx + (n + 1)
      omega

theorem spawnLoop_complete {α : Type} (frame : ℤ) (k : ℕ) (s : Scene α)
    (hk : 1 ≤ k) (hs : s.tiles.length ≤ s.spawnIdx) :
    (spawnLoop frame k s).done = true := by
  cases k with
  | zero => exact absurd hk (by omega)
  | succ m =>
    rw [spawnLoop, if_pos hs]

theorem advanceScene_length {α : Type} (s : Scene α) :
    ∀ n, (advanceScene s n).tiles.length = s.tiles.length := by
  intro n
  induction n with
  | zero => rfl
  | succ m ih =>
    rw [advanceScene, sceneFrame]
    by_cases h : (advanceScene s m).done
    · simp [h, ih]
    · simp only [h]
      rw [if_neg (by simp [h])]
      rw [spawnLoop_length, ih]

theorem advanceScene_spawnIdx_bound {α : Type} (s : Scene α)
    (h0 : s.spawnIdx ≤ s.tiles.length) :
    ∀ n, (advanceScene s n).spawnIdx ≤ s.tiles.length := by
  intro n
  induction n with
  | zero => exact h0
  | succ m ih =>
    rw [advanceScene, sceneFrame]
    by_cases h : (advanceScene s m).done
    · simp only [if_pos h]
      exact ih
    · rw [if_neg (by simp [h])]
      have := spawnLoop_spawnIdx_bound ((m : ℤ) + 1)
        (advanceScene s m).tilesPerTick (advanceScene s m)
        (by rw [advanceScene_length]; exact ih)
      rw [advanceScene_length] at this
      exact this

theorem advanceScene_tpt {α : Type} (s : Scene α) :
    ∀ n, (advanceScene s n).tilesPerTick = s.tilesPerTick := by
  intro n
  induction n with
  | zero => rfl
  | succ m ih =>
    rw [advanceScene, sceneFrame]
    by_cases h : (advanceScene s m).done
    · simp [h, ih]
    · rw [if_neg (by simp [h])]
      have aux : ∀ (frame : ℤ) (k : ℕ) (t : Scene α),
          (spawnLoop frame k t).tilesPerTick = t.tilesPerTick := by
        intro frame k
        induction k with
        | zero => intro t; rfl
        | succ j ihj =>
          intro t
          by_cases ht : t.tiles.length ≤ t.spawnIdx
          · simp [spawnLoop, ht]
          · simp only [spawnLoop, if_neg ht]
            rw [ihj]
      rw [aux, ih]

theorem advanceScene_not_done_spawnIdx {α : Type} (s : Scene α) :
    ∀ n, (advanceScene s n).done = false →
      (advanceScene s n).spawnIdx = s.spawnIdx + n * s.tilesPerTick := by
  intro n
  induction n with
  | zero => intro _; simp [advanceScene]
  | succ m ih =>
    intro hdone
    rw [advanceScene, sceneFrame] at hdone ⊢
    by_cases h : (advanceScene s m).done
    · rw [if_pos h] at hdone
      simp at hdone
      exact absurd h (by simp [hdone])
    · rw [if_neg (by simp [h])] at hdone ⊢
      obtain ⟨h1, _⟩ := spawnLoop_progress ((m : ℤ) + 1) _ _ hdone
      rw [h1, ih (by simp [h]), advanceScene_tpt]
      ring

/-- C8.  A freshly built scene has `spawnIdx = 0`, `done = false` and
`alpha = 0`; across driver frames the spawn cursor never decreases, never
exceeds the unit count, the unit list length is fixed, and `done` never
regresses; a frame that starts with `spawnIdx = unitCount` and a positive
`tilesPerTick` marks the scene done; and from a fresh scene every frame
count past `unitCount` leaves the scene done (so `done` becomes true and
remains true). -/
theorem C8_scene_spawn_monotonic :
    (∀ (α : Type) (units : List α) (tpt hl : ℕ) (bs : ℚ),
      (mkScene units tpt hl bs).spawnIdx = 0 ∧
      (mkScene units tpt hl bs).done = false ∧
      (mkScene units tpt hl bs).alpha = 0) ∧
    (∀ (α : Type) (frame : ℤ) (s : Scene α),
      s.spawnIdx ≤ (sceneFrame frame s).spawnIdx ∧
      (sceneFrame frame s).tiles.length = s.tiles.length ∧
      (s.spawnIdx ≤ s.tiles.length →
        (sceneFrame frame s).spawnIdx ≤ s.tiles.length) ∧
      (s.done = true → (sceneFrame frame s).done = true)) ∧
    (∀ (α : Type) (frame : ℤ) (s : Scene α),
      1 ≤ s.tilesPerTick → s.done = false → s.spawnIdx = s.tiles.length →
      (sceneFrame frame s).done = true) ∧
    (∀ (α : Type) (units : List α) (tpt hl : ℕ) (bs : ℚ),
      1 ≤ tpt → ∀ n, units.length + 1 ≤ n →
        (advanceScene (mkScene units tpt hl bs) n).done = true) := by
  refine ⟨fun α units tpt hl bs => ⟨rfl, rfl, rfl⟩, ?_, ?_, ?_⟩
  · intro α frame s
    by_cases h : s.done
    · rw [sceneFrame, if_pos h]
      exact ⟨le_rfl, rfl, fun hb => hb, fun _ => h⟩
    · rw [sceneFrame, if_neg h]
      exact ⟨spawnLoop_spawnIdx_le frame _ s, spawnLoop_length frame _ s,
        spawnLoop_spawnIdx_bound frame _ s, fun hd => absurd hd (by simp [h])⟩
  · intro α frame s htpt hdone hidx
    rw [sceneFrame, if_neg (by simp [hdone])]
    exact spawnLoop_complete frame s.tilesPerTick s htpt (le_of_eq hidx.symm)
  · intro α units tpt hl bs htpt n hn
    by_contra hfalse
    have hdone : (advanceScene (mkScene units tpt hl bs) n).done = false := by
      revert hfalse
      cases (advanceScene (mkScene units tpt hl bs) n).done <;> simp
    have hidx := advanceScene_not_done_spawnIdx (mkScene units tpt hl bs) n hdone
    have hbound := advanceScene_spawnIdx_bound (mkScene units tpt hl bs)
      (by simp [mkScene]) n
    rw [hidx] at hbound
    have hlen : (mkScene units tpt hl bs).tiles.length = units.length := by
      simp [mkScene]
    have htpt2 : (mkScene units tpt hl bs).tilesPerTick = tpt := rfl
    have hidx0 : (mkScene units tpt hl bs).spawnIdx = 0 := rfl
    rw [hlen, htpt2, hidx0] at hbound
    have : n ≤ n * tpt := Nat.le_mul_of_pos_right n htpt
    omega

/-- Witness for C8: a concrete three-unit scene with two units spawned per
tick is done after three frames. -/
theorem C8_witness :
    (advanceScene (mkScene [(0 : ℕ), 1, 2] 2 480 1) 4).done = true :=
  C8_scene_spawn_monotonic.2.2.2 ℕ [0, 1, 2] 2 480 1 (by norm_num) 4
    (by norm_num)

/-! ## The quadratic field of rationals adjoined the square root of 3 -/

/-- An element `a + b·√3`: the exact coordinate field of the Hat tiling,
whose pixel math uses `Math.sqrt(3)` and cosines/sines of multiples of 60
degrees. -/
structure K3 where
  a : ℚ
  b : ℚ
deriving DecidableEq

namespace K3

@[ext] theorem ext {x y : K3} (ha : x.a = y.a) (hb : x.b = y.b) : x = y := by
  cases x; cases y; simp_all

instance : Zero K3 := ⟨⟨0, 0⟩⟩
instance : One K3 := ⟨⟨1, 0⟩⟩
instance : Add K3 := ⟨fun x y => ⟨x.a + y.a, x.b + y.b⟩⟩
instance : Neg K3 := ⟨fun x => ⟨-x.a, -x.b⟩⟩
instance : Sub K3 := ⟨fun x y => ⟨x.a - y.a, x.b - y.b⟩⟩
instance : Mul K3 := ⟨fun x y => ⟨x.a * y.a + 3 * x.b * y.b, x.a * y.b + x.b * y.a⟩⟩

@[simp] theorem zero_a : (0 : K3).a = 0 := rfl
@[simp] theorem zero_b : (0 : K3).b = 0 := rfl
@[simp] theorem one_a : (1 : K3).a = 1 := rfl
@[simp] theorem one_b : (1 : K3).b = 0 := rfl
@[simp] theorem add_a (x y : K3) : (x + y).a = x.a + y.a := rfl
@[simp] theorem add_b (x y : K3) : (x + y).b = x.b + y.b := rfl
@[simp] theorem neg_a (x : K3) : (-x).a = -x.a := rfl
@[simp] theorem neg_b (x : K3) : (-x).b = -x.b := rfl
@[simp] theorem sub_a (x y : K3) : (x - y).a = x.a - y.a := rfl
@[simp] theorem sub_b (x y : K3) : (x - y).b = x.b - y.b := rfl
@[simp] theorem mul_a (x y : K3) : (x * y).a = x.a * y.a + 3 * x.b * y.b := rfl
@[simp] theorem mul_b (x y : K3) : (x * y).b = x.a * y.b + x.b * y.a := rfl

instance : CommRing K3 where
  add := (· + ·)
  add_assoc := by intros; ext <;> simp <;> ring
  zero := 0
  zero_add := by intros; ext <;> simp
  add_zero := by intros; ext <;> simp
  add_comm := by intros; ext <;> simp <;> ring
  mul := (· * ·)
  left_distrib := by intros; ext <;> simp <;> ring
  right_distrib := by intros; ext <;> simp <;> ring
  zero_mul := by intros; ext <;> simp
  mul_zero := by intros; ext <;> simp
  mul_assoc := by intros; ext <;> simp <;> ring
  one := 1
  one_mul := by intros; ext <;> simp
  mul_one := by intros; ext <;> simp
  neg := Neg.neg
  sub := Sub.sub
  sub_eq_add_neg := by intros; ext <;> simp <;> ring
  neg_add_cancel := by intros; ext <;> simp
  mul_comm := by intros; ext <;> simp <;> ring
  nsmul := fun n x => ⟨n * x.a, n * x.b⟩
  nsmul_zero := by intros; ext <;> simp
  nsmul_succ := by intros; ext <;> simp <;> ring
  zsmul := fun n x => ⟨n * x.a, n * x.b⟩
  zsmul_zero' := by intros; ext <;> simp
  zsmul_succ' := by intros; ext <;> push_cast <;> simp <;> ring
  zsmul_neg' := by intros; ext <;> push_cast <;> simp <;> ring

/-- The rational `q`, as the element `q + 0·√3`. -/
def ofQ (q : ℚ) : K3 := ⟨q, 0⟩

@[simp] theorem ofQ_a (q : ℚ) : (ofQ q).a = q := rfl
@[simp] theorem ofQ_b (q : ℚ) : (ofQ q).b = 0 := rfl

/-- Decidable sign test for `0 ≤ a + b·√3`. -/
def nonneg (x : K3) : Bool :=
  if 0 ≤ x.a then
    if 0 ≤ x.b then true else decide (3 * x.b ^ 2 ≤ x.a ^ 2)
  else
    if 0 ≤ x.b then decide (x.a ^ 2 ≤ 3 * x.b ^ 2) else false

/-- The comparison `x ≤ y` of two exact coordinates, as the float
comparison of the source computes it on the corresponding reals. -/
def le (x y : K3) : Bool := nonneg (y - x)

/-- The strict comparison `x < y`. -/
def lt (x y : K3) : Bool := !(le y x)

/-- The real number `a + b·√3` an element stands for. -/
noncomputable def toReal (x : K3) : ℝ := (x.a : ℝ) + (x.b : ℝ) * Real.sqrt 3

theorem nonneg_iff (x : K3) : nonneg x = true ↔ 0 ≤ x.toReal := by
  have hs0 : (0 : ℝ) ≤ Real.sqrt 3 := Real.sqrt_nonneg 3
  have hspos : (0 : ℝ) < Real.sqrt 3 := Real.sqrt_pos.mpr (by norm_num)
  have hs2 : Real.sqrt 3 ^ 2 = 3 := Real.sq_sqrt (by norm_num)
  have hb2 : ∀ q : ℚ, (q : ℝ) ^ 2 * Real.sqrt 3 ^ 2 = 3 * (q : ℝ) ^ 2 := by
    intro q; rw [hs2]; ring
  rw [nonneg, toReal]
  split_ifs with h1 h2 h2
  · simp only [true_iff]
    have ha : (0 : ℝ) ≤ (x.a : ℝ) := by exact_mod_cast h1
    have hb : (0 : ℝ) ≤ (x.b : ℝ) := by exact_mod_cast h2
    nlinarith [mul_nonneg hb hs0]
  · rw [decide_eq_true_eq]
    have ha : (0 : ℝ) ≤ (x.a : ℝ) := by exact_mod_cast h1
    have hb : (x.b : ℝ) < 0 := by exact_mod_cast not_le.mp h2
    have h3 : (0 : ℝ) < (x.a : ℝ) - (x.b : ℝ) * Real.sqrt 3 := by
      nlinarith [mul_pos (neg_pos.mpr hb) hspos]
    constructor
    · intro hq
      have hq2 : 3 * (x.b : ℝ) ^ 2 ≤ (x.a : ℝ) ^ 2 := by exact_mod_cast hq
      nlinarith [hb2 x.b]
    · intro hr
      have goal2 : 3 * (x.b : ℝ) ^ 2 ≤ (x.a : ℝ) ^ 2 := by
        nlinarith [hb2 x.b]
      exact_mod_cast goal2
  · rw [decide_eq_true_eq]
    have ha : (x.a : ℝ) < 0 := by exact_mod_cast not_le.mp h1
    have hb : (0 : ℝ) ≤ (x.b : ℝ) := by exact_mod_cast h2
    have h3 : (0 : ℝ) < (x.b : ℝ) * Real.sqrt 3 - (x.a : ℝ) := by
      nlinarith [mul_nonneg hb hs0]
    constructor
    · intro hq
      have hq2 : (x.a : ℝ) ^ 2 ≤ 3 * (x.b : ℝ) ^ 2 := by exact_mod_cast hq
      nlinarith [hb2 x.b]
    · intro hr
      have goal2 : (x.a : ℝ) ^ 2 ≤ 3 * (x.b : ℝ) ^ 2 := by
        nlinarith [hb2 x.b]
      exact_mod_cast goal2
  · simp only [Bool.false_eq_true, false_iff, not_le]
    have ha : (x.a : ℝ) < 0 := by exact_mod_cast not_le.mp h1
    have hb : (x.b : ℝ) < 0 := by exact_mod_cast not_le.mp h2
    nlinarith [mul_pos (neg_pos.mpr hb) hspos]

theorem toReal_sub (x y : K3) : (x - y).toReal = x.toReal - y.toReal := by
  simp only [toReal, sub_a, sub_b]
  push_cast
  ring

theorem le_iff (x y : K3) : le x y = true ↔ x.toReal ≤ y.toReal := by
  rw [le, nonneg_iff, toReal_sub, sub_nonneg]

theorem lt_iff (x y : K3) : lt x y = true ↔ x.toReal < y.toReal := by
  rw [lt, Bool.not_eq_true', ← Bool.not_eq_true, not_iff_comm, not_lt, le_iff]

end K3

/-! ## HatTiling -/

/-- The construction parameters of `HatTiling`: `s = edgeLen` and the
orientation seed. -/
structure HatTiling where
  s : ℚ
  orientSeed : ℤ

namespace HatTiling

/-- `_kiteVerts`: the 13 stored kite-grid vertices of the Hat polykite.
The first and the last entry are both `(0, 0)`: the closure point is
stored explicitly. -/
def kiteVerts : List (ℤ × ℤ) :=
  [(0, 0), (1, 0), (2, 0), (3, 0),
   (3, 1), (2, 1),
   (3, 2), (3, 3), (2, 3),
   (1, 2), (0, 2), (0, 1), (0, 0)]

/-- `_orientations`: `[mirrorX, rotationSteps × 60°]`. -/
def orientations : List (Bool × ℕ) :=
  [(false, 0), (false, 1), (false, 2), (false, 3), (false, 4), (false, 5),
   (true, 0), (true, 2)]

/-- `_kiteToPixel(u, v, flipX)`: `px = u·s + v·(s/2)`, `py = v·(s·√3/2)`,
with `px` negated when mirrored.  In `ℚ(√3)`, `px` is rational and `py` is
a rational multiple of `√3`. -/
def kiteToPixel (ht : HatTiling) (u v : ℤ) (flipX : Bool) : K3 × K3 :=
  let px : K3 := ⟨(u : ℚ) * ht.s + (v : ℚ) * (ht.s / 2), 0⟩
  let py : K3 := ⟨0, (v : ℚ) * (ht.s / 2)⟩
  (if flipX then -px else px, py)

/-- The exact value of `Math.cos(rotSteps * π/3)` in `ℚ(√3)`. -/
def rotCos : ℕ → K3
  | 0 => ⟨1, 0⟩
  | 1 => ⟨1 / 2, 0⟩
  | 2 => ⟨-(1 / 2), 0⟩
  | 3 => ⟨-1, 0⟩
  | 4 => ⟨-(1 / 2), 0⟩
  | _ => ⟨1 / 2, 0⟩

/-- The exact value of `Math.sin(rotSteps * π/3)` in `ℚ(√3)` (the
`√3/2` values are the elements `0 + (1/2)·√3`). -/
def rotSin : ℕ → K3
  | 0 => ⟨0, 0⟩
  | 1 => ⟨0, 1 / 2⟩
  | 2 => ⟨0, 1 / 2⟩
  | 3 => ⟨0, 0⟩
  | 4 => ⟨0, -(1 / 2)⟩
  | _ => ⟨0, -(1 / 2)⟩

/-- `rotPt(x, y, angle)` of the geometry kernel, at the angles
`rotSteps * 60°` the Hat tiling calls it with, using the exact
cosine/sine values. -/
def rotPtK (x y : K3) (k : ℕ) : K3 × K3 :=
  (x * rotCos k - y * rotSin k, x * rotSin k + y * rotCos k)

/-- The per-vertex transform of `_tilePoly`: kite grid to pixels, mirror,
rotate, translate by the tile center. -/
def vertexMap (ht : HatTiling) (cx cy : K3) (f : Bool) (k : ℕ)
    (uv : ℤ × ℤ) : K3 × K3 :=
  let p := ht.kiteToPixel uv.1 uv.2 f
  let r := rotPtK p.1 p.2 k
  (cx + r.1, cy + r.2)

/-- `_tilePoly(cx, cy, orientIdx)`: map each kite vertex to pixels,
mirror, rotate, then translate by the tile center. -/
def tilePoly (ht : HatTiling) (cx cy : K3) (orientIdx : ℕ) : List (K3 × K3) :=
  let o := orientations.getD (orientIdx % 8) (false, 0)
  kiteVerts.map (ht.vertexMap cx cy o.1 o.2)

/-- One generated tile: `{ poly, cx, cy }`. -/
structure Tile where
  poly : List (K3 × K3)
  cx : K3
  cy : K3
deriving DecidableEq

/-- The per-cell orientation selection
`((col*3 + row*5 + orientSeed) & 0xff) % 8`, on the 32-bit reading. -/
def orientIdxAt (ht : HatTiling) (col row : ℤ) : ℕ :=
  toUInt32 (col * 3 + row * 5 + ht.orientSeed) % 256 % 8

/-- Squared distance between two exact plane points; the source compares
`Math.hypot` values, which is the same ordering. -/
def sqDistK (x y mx my : K3) : K3 :=
  (x - mx) * (x - mx) + (y - my) * (y - my)

/-- The inner loop of `generateTiles`:
`for (let col = -2; col * colStep < width + pad; col++)`. -/
def colLoop (ht : HatTiling) (width : ℚ) (pad : K3) (row : ℤ) :
    ℕ → ℤ → List Tile
  | 0, _ => []
  | fuel + 1, col =>
    if K3.lt (K3.ofQ ((col : ℚ) * (ht.s * (9 / 2)))) (K3.ofQ width + pad) then
      let cx : ℚ := (col : ℚ) * (ht.s * (9 / 2)) +
        ((Int.tmod row 2 : ℤ) : ℚ) * (ht.s * (9 / 2)) * (1 / 2)
      let cy : K3 := K3.ofQ (row : ℚ) * ⟨0, (3 / 2) * ht.s⟩
      { poly := ht.tilePoly (K3.ofQ cx) cy (ht.orientIdxAt col row),
        cx := K3.ofQ cx, cy := cy } ::
        ht.colLoop width pad row fuel (col + 1)
    else []

/-- The outer loop of `generateTiles`:
`for (let row = -2; row * rowStep < height + pad; row++)`. -/
def rowLoop (ht : HatTiling) (width height : ℚ) (pad : K3) (xfuel : ℕ) :
    ℕ → ℤ → List Tile
  | 0, _ => []
  | fuel + 1, row =>
    if K3.lt (K3.ofQ (row : ℚ) * ⟨0, (3 / 2) * ht.s⟩) (K3.ofQ height + pad) then
      ht.colLoop width pad row xfuel (-2) ++
        ht.rowLoop width height pad xfuel fuel (row + 1)
    else []

/-- `Math.max` on exact coordinates. -/
def maxK (x y : K3) : K3 := if K3.lt x y then y else x

/-- `generateTiles(width, height)`: `colStep = s·4.5`,
`rowStep = (s·√3/2)·3`, `pad = max(colStep, rowStep)·2`; collect the grid
of tiles (rows and columns from −2) and sort them by distance of their
center from the viewport center, ascending. -/
def generateTiles (ht : HatTiling) (width height : ℚ) (fuel : ℕ) :
    List Tile :=
  let pad : K3 := maxK (K3.ofQ (ht.s * (9 / 2))) ⟨0, (3 / 2) * ht.s⟩ * K3.ofQ 2
  let tiles := ht.rowLoop width height pad fuel fuel (-2)
  tiles.mergeSort fun t u =>
    K3.le (sqDistK t.cx t.cy (K3.ofQ (width / 2)) (K3.ofQ (height / 2)))
      (sqDistK u.cx u.cy (K3.ofQ (width / 2)) (K3.ofQ (height / 2)))

end HatTiling

namespace HatTiling

theorem rot_norm (k : ℕ) :
    rotCos k * rotCos k + rotSin k * rotSin k = 1 := by
  match k with
  | 0 => with_unfolding_all decide
  | 1 => with_unfolding_all decide
  | 2 => with_unfolding_all decide
  | 3 => with_unfolding_all decide
  | 4 => with_unfolding_all decide
  | n + 5 =>
    show (⟨1 / 2, 0⟩ : K3) * ⟨1 / 2, 0⟩ + (⟨0, -(1 / 2)⟩ : K3) * ⟨0, -(1 / 2)⟩ = 1
    with_unfolding_all decide

theorem rotPtK_inj (k : ℕ) {x₁ y₁ x₂ y₂ : K3}
    (h : rotPtK x₁ y₁ k = rotPtK x₂ y₂ k) : x₁ = x₂ ∧ y₁ = y₂ := by
  rw [rotPtK, rotPtK, Prod.mk.injEq] at h
  obtain ⟨h1, h2⟩ := h
  constructor
  · calc x₁ = x₁ * (rotCos k * rotCos k + rotSin k * rotSin k) := by
          rw [rot_norm, mul_one]
    _ = (x₁ * rotCos k - y₁ * rotSin k) * rotCos k +
        (x₁ * rotSin k + y₁ * rotCos k) * rotSin k := by ring
    _ = (x₂ * rotCos k - y₂ * rotSin k) * rotCos k +
        (x₂ * rotSin k + y₂ * rotCos k) * rotSin k := by rw [h1, h2]
    _ = x₂ * (rotCos k * rotCos k + rotSin k * rotSin k) := by ring
    _ = x₂ := by rw [rot_norm, mul_one]
  · calc y₁ = y₁ * (rotCos k * rotCos k + rotSin k * rotSin k) := by
          rw [rot_norm, mul_one]
    _ = (x₁ * rotSin k + y₁ * rotCos k) * rotCos k -
        (x₁ * rotCos k - y₁ * rotSin k) * rotSin k := by ring
    _ = (x₂ * rotSin k + y₂ * rotCos k) * rotCos k -
        (x₂ * rotCos k - y₂ * rotSin k) * rotSin k := by rw [h1, h2]
    _ = y₂ * (rotCos k * rotCos k + rotSin k * rotSin k) := by ring
    _ = y₂ := by rw [rot_norm, mul_one]

theorem kiteToPixel_inj (ht : HatTiling) (hs : ht.s ≠ 0) (f : Bool)
    {u₁ v₁ u₂ v₂ : ℤ} (h : ht.kiteToPixel u₁ v₁ f = ht.kiteToPixel u₂ v₂ f) :
    u₁ = u₂ ∧ v₁ = v₂ := by
  have hs2 : ht.s / 2 ≠ 0 := div_ne_zero hs two_ne_zero
  rw [kiteToPixel, kiteToPixel, Prod.mk.injEq] at h
  obtain ⟨h1, h2⟩ := h
  have hv : (v₁ : ℚ) * (ht.s / 2) = (v₂ : ℚ) * (ht.s / 2) := congrArg K3.b h2
  have hvq : (v₁ : ℚ) = (v₂ : ℚ) := mul_right_cancel₀ hs2 hv
  have hvz : v₁ = v₂ := by exact_mod_cast hvq
  subst hvz
  have hpx : (⟨(u₁ : ℚ) * ht.s + (v₁ : ℚ) * (ht.s / 2), 0⟩ : K3) =
      ⟨(u₂ : ℚ) * ht.s + (v₁ : ℚ) * (ht.s / 2), 0⟩ := by
    cases f
    · simpa using h1
    · have := congrArg (fun z : K3 => -z) h1
      simpa using this
  have hu : (u₁ : ℚ) * ht.s + (v₁ : ℚ) * (ht.s / 2) =
      (u₂ : ℚ) * ht.s + (v₁ : ℚ) * (ht.s / 2) := congrArg K3.a hpx
  have huq : (u₁ : ℚ) = (u₂ : ℚ) :=
    mul_right_cancel₀ hs (by linarith)
  exact ⟨by exact_mod_cast huq, rfl⟩

theorem vertexMap_inj (ht : HatTiling) (hs : ht.s ≠ 0) (f : Bool) (k : ℕ)
    (cx cy : K3) :
    Function.Injective (ht.vertexMap cx cy f k) := by
  intro p q h
  simp only [vertexMap, Prod.mk.injEq] at h
  obtain ⟨h1, h2⟩ := h
  have hr : rotPtK (ht.kiteToPixel p.1 p.2 f).1 (ht.kiteToPixel p.1 p.2 f).2 k =
      rotPtK (ht.kiteToPixel q.1 q.2 f).1 (ht.kiteToPixel q.1 q.2 f).2 k := by
    have e1 := add_left_cancel h1
    have e2 := add_left_cancel h2
    exact Prod.ext e1 e2
  obtain ⟨e1, e2⟩ := rotPtK_inj k hr
  have hk : ht.kiteToPixel p.1 p.2 f = ht.kiteToPixel q.1 q.2 f := Prod.ext e1 e2
  obtain ⟨hu, hv⟩ := ht.kiteToPixel_inj hs f hk
  exact Prod.ext hu hv

theorem tilePoly_shape (ht : HatTiling) (cx cy : K3) (k : ℕ) :
    (ht.tilePoly cx cy k).length = 13 ∧
    (ht.tilePoly cx cy k).head? = (ht.tilePoly cx cy k).getLast? ∧
    (ht.s ≠ 0 → ((ht.tilePoly cx cy k).take 12).Nodup) := by
  refine ⟨rfl, rfl, ?_⟩
  intro hs
  have h := List.Nodup.map
    (ht.vertexMap_inj hs (orientations.getD (k % 8) (false, 0)).1
      (orientations.getD (k % 8) (false, 0)).2 cx cy)
    (show (kiteVerts.take 12).Nodup by decide)
  rw [List.map_take] at h
  exact h

theorem mem_colLoop {ht : HatTiling} {w : ℚ} {pad : K3} {row : ℤ} :
    ∀ {fuel : ℕ} {col : ℤ} {t : Tile},
      t ∈ ht.colLoop w pad row fuel col →
      ∃ (cx cy : K3) (k : ℕ), t = ⟨ht.tilePoly cx cy k, cx, cy⟩ := by
  intro fuel
  induction fuel with
  | zero =>
    intro col t htm
    simp [colLoop] at htm
  | succ n ih =>
    intro col t htm
    rw [colLoop] at htm
    split_ifs at htm with hc
    · rcases List.mem_cons.mp htm with rfl | htm'
      · exact ⟨_, _, _, rfl⟩
      · exact ih htm'
    · simp at htm

theorem mem_rowLoop {ht : HatTiling} {w h : ℚ} {pad : K3} {xf : ℕ} :
    ∀ {fuel : ℕ} {row : ℤ} {t : Tile},
      t ∈ ht.rowLoop w h pad xf fuel row →
      ∃ (cx cy : K3) (k : ℕ), t = ⟨ht.tilePoly cx cy k, cx, cy⟩ := by
  intro fuel
  induction fuel with
  | zero =>
    intro row t htm
    simp [rowLoop] at htm
  | succ n ih =>
    intro row t htm
    rw [rowLoop] at htm
    split_ifs at htm with hc
    · rcases List.mem_append.mp htm with htm' | htm'
      · exact mem_colLoop htm'
      · exact ih htm'
    · simp at htm

theorem mem_generateTiles {ht : HatTiling} {w h : ℚ} {fuel : ℕ} {t : Tile}
    (htm : t ∈ ht.generateTiles w h fuel) :
    ∃ (cx cy : K3) (k : ℕ), t = ⟨ht.tilePoly cx cy k, cx, cy⟩ := by
  rw [generateTiles] at htm
  exact mem_rowLoop (List.mem_mergeSort.mp htm)

end HatTiling

/-! ## HatTiling and Truchet: claims C3, C7 and C9 -/

/-- C3.  Both generators are deterministic: with equal parameters,
repeated calls of `HatTiling.generateTiles` return identical tile lists
(same polygons, same order), and repeated calls of `Truchet.generate`
(driven only by the xorshift recurrence seeded from the given integer)
return identical command lists.  In this pure model the two runs are one
and the same term; the substance is that the embedding of either
generator needs no input beyond the listed parameters. -/
theorem C3_determinism :
    (∀ (ht : HatTiling) (w h : ℚ) (fuel : ℕ),
      ht.generateTiles w h fuel = ht.generateTiles w h fuel) ∧
    (∀ (t : Truchet) (w h : ℚ) (seed : ℤ) (fuel : ℕ),
      t.generate w h seed fuel = t.generate w h seed fuel) :=
  ⟨fun _ _ _ _ => rfl, fun _ _ _ _ _ => rfl⟩

/-- C9 (amended).  Every tile produced by `HatTiling.generateTiles`
carries an ordered closed polygon with 13 stored points whose first and
last point are equal — the closure is stored explicitly, not implied —
and, for `edgeLen ≠ 0`, whose first 12 points are pairwise distinct
vertices. -/
theorem C9_hat_tile_polygon :
    ∀ (ht : HatTiling) (w h : ℚ) (fuel : ℕ),
      (∀ t ∈ ht.generateTiles w h fuel,
        t.poly.length = 13 ∧ t.poly.head? = t.poly.getLast?) ∧
      (ht.s ≠ 0 → ∀ t ∈ ht.generateTiles w h fuel,
        (t.poly.take 12).Nodup) := by
  intro ht w h fuel
  constructor
  · intro t htm
    obtain ⟨cx, cy, k, rfl⟩ := HatTiling.mem_generateTiles htm
    exact ⟨(ht.tilePoly_shape cx cy k).1, (ht.tilePoly_shape cx cy k).2.1⟩
  · intro hs t htm
    obtain ⟨cx, cy, k, rfl⟩ := HatTiling.mem_generateTiles htm
    exact (ht.tilePoly_shape cx cy k).2.2 hs

/-- Counterexample for C9 as stated: in the concrete tile polygon of
`HatTiling(28, 0)` at center (0,0), orientation 0, the first and the
thirteenth stored point are equal — closure is stored, not merely
implied, so the 13 stored points are not 13 distinct vertices. -/
theorem C9_counterexample :
    (HatTiling.tilePoly ⟨28, 0⟩ 0 0 0).length = 13 ∧
    (HatTiling.tilePoly ⟨28, 0⟩ 0 0 0).head? =
      (HatTiling.tilePoly ⟨28, 0⟩ 0 0 0).getLast? ∧
    ¬ (HatTiling.tilePoly ⟨28, 0⟩ 0 0 0).Nodup := by
  refine ⟨rfl, rfl, ?_⟩
  with_unfolding_all decide

/-- C7.  The tile list of `HatTiling.generateTiles` is sorted in ascending
order of the Euclidean distance of each tile center from the viewport
center, and the command list of `Truchet.generate` is sorted in ascending
order of the distance of each arc midpoint from the viewport center (the
distances read as real numbers; sorting by the comparator
`hypot(a) - hypot(b)` of the source is sorting by these keys). -/
theorem C7_center_sorted :
    (∀ (ht : HatTiling) (w h : ℚ) (fuel : ℕ),
      (ht.generateTiles w h fuel).Sorted fun t u =>
        Real.sqrt (K3.toReal (HatTiling.sqDistK t.cx t.cy
            (K3.ofQ (w / 2)) (K3.ofQ (h / 2)))) ≤
        Real.sqrt (K3.toReal (HatTiling.sqDistK u.cx u.cy
            (K3.ofQ (w / 2)) (K3.ofQ (h / 2))))) ∧
    (∀ (t : Truchet) (w h : ℚ) (seed : ℤ) (fuel : ℕ),
      (t.generate w h seed fuel).Sorted fun a b =>
        Real.sqrt ((sqDist a.midX a.midY (w / 2) (h / 2) : ℚ) : ℝ) ≤
        Real.sqrt ((sqDist b.midX b.midY (w / 2) (h / 2) : ℚ) : ℝ)) := by
  constructor
  · intro ht w h fuel
    have hp := @List.sorted_mergeSort HatTiling.Tile
      (fun t u : HatTiling.Tile =>
        K3.le (HatTiling.sqDistK t.cx t.cy (K3.ofQ (w / 2)) (K3.ofQ (h / 2)))
          (HatTiling.sqDistK u.cx u.cy (K3.ofQ (w / 2)) (K3.ofQ (h / 2))))
      (fun a b c hab hbc => (K3.le_iff _ _).mpr
        (le_trans ((K3.le_iff _ _).mp hab) ((K3.le_iff _ _).mp hbc)))
      (fun a b => by
        rw [Bool.or_eq_true]
        rcases le_total
            (K3.toReal (HatTiling.sqDistK a.cx a.cy (K3.ofQ (w / 2)) (K3.ofQ (h / 2))))
            (K3.toReal (HatTiling.sqDistK b.cx b.cy (K3.ofQ (w / 2)) (K3.ofQ (h / 2))))
          with hle | hle
        · exact Or.inl ((K3.le_iff _ _).mpr hle)
        · exact Or.inr ((K3.le_iff _ _).mpr hle))
      (ht.rowLoop w h
        (HatTiling.maxK (K3.ofQ (ht.s * (9 / 2))) ⟨0, (3 / 2) * ht.s⟩ * K3.ofQ 2)
        fuel fuel (-2))
    exact hp.imp fun hab => Real.sqrt_le_sqrt ((K3.le_iff _ _).mp hab)
  · intro t w h seed fuel
    have hp := @List.sorted_mergeSort ArcCmd
      (fun a b : ArcCmd =>
        decide (sqDist a.midX a.midY (w / 2) (h / 2) ≤
          sqDist b.midX b.midY (w / 2) (h / 2)))
      (fun a b c hab hbc => by
        rw [decide_eq_true_eq] at hab hbc ⊢
        exact le_trans hab hbc)
      (fun a b => by
        rw [Bool.or_eq_true, decide_eq_true_eq, decide_eq_true_eq]
        exact le_total _ _)
      ((t.gridY (fun x y size rng => t.processCell fuel x y size rng)
        w h fuel fuel (-t.baseSize) (toUInt32 seed)).1)
    exact hp.imp fun hab => Real.sqrt_le_sqrt
      (by exact_mod_cast (decide_eq_true_eq.mp hab))

/-! ## Rosette -/

/-- The numeric oracle for the float functions the Rosette construction
calls: `Math.cos`, `Math.sin`, `Math.atan2(y, x)`, `Math.hypot`, and the
constants `Math.PI` and `Math.sqrt(3)`.  Every Rosette theorem below holds
for every oracle, hence in particular for the actual float values computed
by the host. -/
structure TrigOracle where
  cos : ℚ → ℚ
  sin : ℚ → ℚ
  atan2 : ℚ → ℚ → ℚ
  hypot : ℚ → ℚ → ℚ
  pi : ℚ
  sqrt3 : ℚ

/-- The construction parameters of `Rosette`. -/
structure Rosette where
  numPetals : ℕ
  connectEveryN : ℕ
  outerRadius : ℚ

/-- A line segment `{x1, y1, x2, y2}`. -/
structure Seg where
  x1 : ℚ
  y1 : ℚ
  x2 : ℚ
  y2 : ℚ
deriving DecidableEq

/-- A diagonal extension `{x1, y1, x2, y2, _tip}`; the `_tip` field is
always set when an extension is pushed, so it is not optional here (the
`if (!ext._tip) continue` of the source never skips). -/
structure ExtSeg where
  x1 : ℚ
  y1 : ℚ
  x2 : ℚ
  y2 : ℚ
  tip : Pt
deriving DecidableEq

namespace Rosette

/-- `middleRadius = outerRadius * 0.50`. -/
def middleRadius (R : Rosette) : ℚ := R.outerRadius * (50 / 100)

/-- `innerRadius = outerRadius * 0.21`. -/
def innerRadius (R : Rosette) : ℚ := R.outerRadius * (21 / 100)

/-- `dRad = TWO_PI / n`. -/
def dRad (O : TrigOracle) (R : Rosette) : ℚ := O.pi * 2 / (R.numPetals : ℚ)

/-- The i-th point on the outer circle. -/
def extPt (O : TrigOracle) (R : Rosette) (cx cy : ℚ) (i : ℕ) : Pt :=
  ⟨cx + R.outerRadius * O.cos (dRad O R * (i : ℚ)),
   cy + R.outerRadius * O.sin (dRad O R * (i : ℚ))⟩

/-- The i-th point on the middle circle. -/
def middlePt (O : TrigOracle) (R : Rosette) (cx cy : ℚ) (i : ℕ) : Pt :=
  ⟨cx + middleRadius R * O.cos (dRad O R * (i : ℚ)),
   cy + middleRadius R * O.sin (dRad O R * (i : ℚ))⟩

/-- The i-th point on the inner circle. -/
def innerPt (O : TrigOracle) (R : Rosette) (cx cy : ℚ) (i : ℕ) : Pt :=
  ⟨cx + innerRadius R * O.cos (dRad O R * (i : ℚ)),
   cy + innerRadius R * O.sin (dRad O R * (i : ℚ))⟩

/-- One outer star-polygon line: point `i` to point `(i + skip) % n`. -/
def outerLine (O : TrigOracle) (R : Rosette) (cx cy : ℚ) (i : ℕ) : Seg :=
  ⟨(extPt O R cx cy i).x, (extPt O R cx cy i).y,
   (extPt O R cx cy ((i + R.connectEveryN) % R.numPetals)).x,
   (extPt O R cx cy ((i + R.connectEveryN) % R.numPetals)).y⟩

def outerLines (O : TrigOracle) (R : Rosette) (cx cy : ℚ) : List Seg :=
  (List.range R.numPetals).map (outerLine O R cx cy)

/-- One radial spoke: center to outer point `i`. -/
def radialLine (O : TrigOracle) (R : Rosette) (cx cy : ℚ) (i : ℕ) : Seg :=
  ⟨cx, cy, (extPt O R cx cy i).x, (extPt O R cx cy i).y⟩

def radialLines (O : TrigOracle) (R : Rosette) (cx cy : ℚ) : List Seg :=
  (List.range R.numPetals).map (radialLine O R cx cy)

/-- First diagonal family: middle point `i` to inner point `(i+1) % n`. -/
def cwDiag (O : TrigOracle) (R : Rosette) (cx cy : ℚ) (i : ℕ) : Seg :=
  ⟨(middlePt O R cx cy i).x, (middlePt O R cx cy i).y,
   (innerPt O R cx cy ((i + 1) % R.numPetals)).x,
   (innerPt O R cx cy ((i + 1) % R.numPetals)).y⟩

/-- Second diagonal family: middle point `(i+1) % n` to inner point `i`. -/
def ccwDiag (O : TrigOracle) (R : Rosette) (cx cy : ℚ) (i : ℕ) : Seg :=
  ⟨(middlePt O R cx cy ((i + 1) % R.numPetals)).x,
   (middlePt O R cx cy ((i + 1) % R.numPetals)).y,
   (innerPt O R cx cy i).x, (innerPt O R cx cy i).y⟩

/-- `diagLines`: the first family, then the second family, so the diagonal
at index `i` is `cwDiag i` and the one at index `n + i` is `ccwDiag i`. -/
def diagLines (O : TrigOracle) (R : Rosette) (cx cy : ℚ) : List Seg :=
  (List.range R.numPetals).map (cwDiag O R cx cy) ++
    (List.range R.numPetals).map (ccwDiag O R cx cy)

/-- Extend one diagonal to its nearest outer-line intersection: `tx, ty`
is the endpoint farther from the rosette center, the fold keeps the
intersection of smallest distance `dd` (the first of equal candidates),
and a diagonal with no intersection at all is dropped (`none`). -/
def extendDiag (O : TrigOracle) (R : Rosette) (cx cy : ℚ) (dl : Seg) :
    Option ExtSeg :=
  let d1 := O.hypot (dl.x1 - cx) (dl.y1 - cy)
  let d2 := O.hypot (dl.x2 - cx) (dl.y2 - cy)
  let tx := if d2 < d1 then dl.x1 else dl.x2
  let ty := if d2 < d1 then dl.y1 else dl.y2
  let nx := if d2 < d1 then dl.x2 else dl.x1
  let ny := if d2 < d1 then dl.y2 else dl.y1
  let best := (outerLines O R cx cy).foldl (fun best ol =>
    match lineIntersect nx ny tx ty ol.x1 ol.y1 ol.x2 ol.y2 with
    | none => best
    | some pt =>
      let dd := O.hypot (pt.x - tx) (pt.y - ty)
      match best with
      | none => some (pt, dd)
      | some (bp, bd) => if dd < bd then some (pt, dd) else some (bp, bd))
    none
  match best with
  | none => none
  | some (bp, _) => some ⟨tx, ty, bp.x, bp.y, bp⟩

def diagExt (O : TrigOracle) (R : Rosette) (cx cy : ℚ) : List ExtSeg :=
  (diagLines O R cx cy).filterMap (extendDiag O R cx cy)

/-- The angular admission test of the petal tip selection:
`delta < dRad * 0.6` — 0.6 times the FULL sector angle `dRad`. -/
def tipWithin (delta dRad : ℚ) : Bool := delta < dRad * (6 / 10)

/-- Modelled from the words of claim C6 (for its counterexample): an
admission tolerance of 0.6 times the sector HALF-angle,
`delta < (dRad / 2) * 0.6`.  The source instead admits up to
`dRad * 0.6`. -/
def tipWithinSpec (delta dRad : ℚ) : Bool := delta < dRad / 2 * (6 / 10)

/-- The angular distance of a candidate tip from the petal bisector:
`abs(((atan2(ty - cy, tx - cx) - anglePetal + 3π) % 2π) - π)`, with the
JavaScript float remainder. -/
def tipDelta (O : TrigOracle) (cx cy anglePetal : ℚ) (p : Pt) : ℚ :=
  |jsFmod (O.atan2 (p.y - cy) (p.x - cx) - anglePetal + O.pi * 3) (O.pi * 2) -
    O.pi|

/-- The distance of a candidate tip from the rosette center. -/
def tipDist (O : TrigOracle) (cx cy : ℚ) (p : Pt) : ℚ :=
  O.hypot (p.x - cx) (p.y - cy)

/-- One step of the farthest-admitted-tip fold (`tip = null, tipDist = 0`
initially; replace only on strictly greater distance). -/
def tipStep (O : TrigOracle) (cx cy anglePetal dRad : ℚ)
    (acc : Option Pt × ℚ) (ext : ExtSeg) : Option Pt × ℚ :=
  if tipWithin (tipDelta O cx cy anglePetal ext.tip) dRad then
    if acc.2 < tipDist O cx cy ext.tip then
      (some ext.tip, tipDist O cx cy ext.tip)
    else acc
  else acc

/-- The petal of angular sector `i`: the inner vertex is the intersection
of the two diagonals bounding the sector (`diagLines[i]` and
`diagLines[n+i]`); `none` (petal omitted) when they do not intersect;
otherwise the points are the inner vertex, the left middle point, the
admitted farthest tip when present, and the right middle point. -/
def petalAt (O : TrigOracle) (R : Rosette) (cx cy : ℚ) (i : ℕ) :
    Option (List Pt) :=
  match lineIntersect (cwDiag O R cx cy i).x1 (cwDiag O R cx cy i).y1
      (cwDiag O R cx cy i).x2 (cwDiag O R cx cy i).y2
      (ccwDiag O R cx cy i).x1 (ccwDiag O R cx cy i).y1
      (ccwDiag O R cx cy i).x2 (ccwDiag O R cx cy i).y2 with
  | none => none
  | some innerVtx =>
    some ([innerVtx, middlePt O R cx cy i] ++
      (match ((diagExt O R cx cy).foldl
          (tipStep O cx cy (dRad O R * ((i : ℚ) + 1 / 2)) (dRad O R))
          (none, 0)).1 with
        | some p => [p]
        | none => []) ++
      [middlePt O R cx cy ((i + 1) % R.numPetals)])

theorem petalAt_none (O : TrigOracle) (R : Rosette) (cx cy : ℚ) (i : ℕ)
    (h : lineIntersect (cwDiag O R cx cy i).x1 (cwDiag O R cx cy i).y1
      (cwDiag O R cx cy i).x2 (cwDiag O R cx cy i).y2
      (ccwDiag O R cx cy i).x1 (ccwDiag O R cx cy i).y1
      (ccwDiag O R cx cy i).x2 (ccwDiag O R cx cy i).y2 = none) :
    petalAt O R cx cy i = none := by
  unfold petalAt
  rw [h]

theorem petalAt_some (O : TrigOracle) (R : Rosette) (cx cy : ℚ) (i : ℕ)
    (v : Pt)
    (h : lineIntersect (cwDiag O R cx cy i).x1 (cwDiag O R cx cy i).y1
      (cwDiag O R cx cy i).x2 (cwDiag O R cx cy i).y2
      (ccwDiag O R cx cy i).x1 (ccwDiag O R cx cy i).y1
      (ccwDiag O R cx cy i).x2 (ccwDiag O R cx cy i).y2 = some v) :
    petalAt O R cx cy i =
      some ([v, middlePt O R cx cy i] ++
        (match ((diagExt O R cx cy).foldl
            (tipStep O cx cy (dRad O R * ((i : ℚ) + 1 / 2)) (dRad O R))
            (none, 0)).1 with
          | some p => [p]
          | none => []) ++
        [middlePt O R cx cy ((i + 1) % R.numPetals)]) := by
  unfold petalAt
  rw [h]

def petals (O : TrigOracle) (R : Rosette) (cx cy : ℚ) : List (List Pt) :=
  (List.range R.numPetals).filterMap (petalAt O R cx cy)

/-- The inner diamond of sector `i`. -/
def diamondAt (O : TrigOracle) (R : Rosette) (cx cy : ℚ) (i : ℕ) : List Pt :=
  let a := dRad O R * (i : ℚ)
  let top := innerPt O R cx cy i
  let left : Pt :=
    ⟨cx + innerRadius R * (55 / 100) * O.cos (a - dRad O R * (50 / 100)),
     cy + innerRadius R * (55 / 100) * O.sin (a - dRad O R * (50 / 100))⟩
  let bottom : Pt := ⟨cx, cy⟩
  let right : Pt :=
    ⟨cx + innerRadius R * (55 / 100) * O.cos (a + dRad O R * (50 / 100)),
     cy + innerRadius R * (55 / 100) * O.sin (a + dRad O R * (50 / 100))⟩
  [left, top, right, bottom]

def diamonds (O : TrigOracle) (R : Rosette) (cx cy : ℚ) : List (List Pt) :=
  (List.range R.numPetals).map (diamondAt O R cx cy)

/-- The kind tag of a line draw command. -/
inductive LineKind
  | radial
  | outer
  | diagonal
  | extensionKind
deriving DecidableEq

/-- A Rosette draw command. -/
inductive RCmd
  | circle (x y r opacity : ℚ)
  | line (x1 y1 x2 y2 : ℚ) (kind : LineKind) (opacity : ℚ)
  | petal (points : List Pt) (opacity : ℚ)
  | diamond (points : List Pt) (opacity : ℚ)
deriving DecidableEq

/-- `build(cx, cy)`: the 7 phases — guide circles, radial spokes, outer
star lines, diagonals, diagonal extensions, petal fills, inner diamond
fills — each with its fixed base opacity. -/
def build (O : TrigOracle) (R : Rosette) (cx cy : ℚ) : List (List RCmd) :=
  [[RCmd.circle cx cy R.outerRadius (6 / 100),
    RCmd.circle cx cy (middleRadius R) (6 / 100),
    RCmd.circle cx cy (innerRadius R) (6 / 100)],
   (radialLines O R cx cy).map fun l =>
     RCmd.line l.x1 l.y1 l.x2 l.y2 LineKind.radial (12 / 100),
   (outerLines O R cx cy).map fun l =>
     RCmd.line l.x1 l.y1 l.x2 l.y2 LineKind.outer (55 / 100),
   (diagLines O R cx cy).map fun l =>
     RCmd.line l.x1 l.y1 l.x2 l.y2 LineKind.diagonal (35 / 100),
   (diagExt O R cx cy).map fun e =>
     RCmd.line e.x1 e.y1 e.x2 e.y2 LineKind.extensionKind (55 / 100),
   (petals O R cx cy).map fun pts => RCmd.petal pts (15 / 100),
   (diamonds O R cx cy).map fun pts => RCmd.diamond pts (22 / 100)]

/-- `rose.phases.forEach((ph, pi) => { if (pi < maxPhases)
merged[pi].push(...ph); })` — at every use both lists have length 7. -/
def mergeInto (merged phases : List (List RCmd)) : List (List RCmd) :=
  List.zipWith (· ++ ·) merged phases

/-- The inner tiling loop:
`for (let col = -1; col * spacing < width + spacing; col++)`. -/
def tileCols (O : TrigOracle) (R : Rosette) (w spacing rowH : ℚ) (row : ℤ) :
    ℕ → ℤ → List (List RCmd) → List (List RCmd)
  | 0, _, merged => merged
  | fuel + 1, col, merged =>
    if (col : ℚ) * spacing < w + spacing then
      tileCols O R w spacing rowH row fuel (col + 1)
        (mergeInto merged (build O R
          ((col : ℚ) * spacing + ((Int.tmod row 2 : ℤ) : ℚ) * spacing * (50 / 100))
          ((row : ℚ) * rowH)))
    else merged

/-- The outer tiling loop:
`for (let row = -1; row * rowH < height + spacing; row++)`. -/
def tileRows (O : TrigOracle) (R : Rosette) (w h spacing rowH : ℚ) (xf : ℕ) :
    ℕ → ℤ → List (List RCmd) → List (List RCmd)
  | 0, _, merged => merged
  | fuel + 1, row, merged =>
    if (row : ℚ) * rowH < h + spacing then
      tileRows O R w h spacing rowH xf fuel (row + 1)
        (tileCols O R w spacing rowH row xf (-1) merged)
    else merged

/-- `tile(width, height)`: hexagonal grid of rosettes,
`spacing = outerRadius * 2.08`, `rowH = spacing * √3 / 2`, odd rows offset
by half a spacing; same-index phases of all motifs concatenated. -/
def tile (O : TrigOracle) (R : Rosette) (w h : ℚ) (fuel : ℕ) :
    List (List RCmd) :=
  let spacing := R.outerRadius * (208 / 100)
  let rowH := spacing * O.sqrt3 / 2
  tileRows O R w h spacing rowH fuel fuel (-1) (List.replicate 7 [])

/-- The grid centers the tiling loops visit, in visiting order (for
stating the per-phase count of `tile`). -/
def centersCols (w spacing rowH : ℚ) (row : ℤ) : ℕ → ℤ → List (ℚ × ℚ)
  | 0, _ => []
  | fuel + 1, col =>
    if (col : ℚ) * spacing < w + spacing then
      ((col : ℚ) * spacing + ((Int.tmod row 2 : ℤ) : ℚ) * spacing * (50 / 100),
        (row : ℚ) * rowH) :: centersCols w spacing rowH row fuel (col + 1)
    else []

def centersRows (w h spacing rowH : ℚ) (xf : ℕ) : ℕ → ℤ → List (ℚ × ℚ)
  | 0, _ => []
  | fuel + 1, row =>
    if (row : ℚ) * rowH < h + spacing then
      centersCols w spacing rowH row xf (-1) ++
        centersRows w h spacing rowH xf fuel (row + 1)
    else []

def centers (O : TrigOracle) (R : Rosette) (w h : ℚ) (fuel : ℕ) :
    List (ℚ × ℚ) :=
  let spacing := R.outerRadius * (208 / 100)
  let rowH := spacing * O.sqrt3 / 2
  centersRows w h spacing rowH fuel fuel (-1)

end Rosette

namespace Rosette

/-- Phase `i` of a phase list (empty when out of range). -/
def phaseAt (l : List (List RCmd)) (i : ℕ) : List RCmd := l.getD i []

theorem phaseAt_mergeInto : ∀ (m p : List (List RCmd)) (i : ℕ),
    i < m.length → i < p.length →
    phaseAt (mergeInto m p) i = phaseAt m i ++ phaseAt p i := by
  intro m
  induction m with
  | nil => intro p i h1 _; simp at h1
  | cons a m ih =>
    intro p i h1 h2
    cases p with
    | nil => simp at h2
    | cons b p =>
      cases i with
      | zero => rfl
      | succ j =>
        have := ih p j (by simpa using h1) (by simpa using h2)
        simpa [mergeInto, phaseAt] using this

theorem build_length (O : TrigOracle) (R : Rosette) (cx cy : ℚ) :
    (build O R cx cy).length = 7 := rfl

theorem mergeInto_build_length (O : TrigOracle) (R : Rosette) (cx cy : ℚ)
    (m : List (List RCmd)) (hm : m.length = 7) :
    (mergeInto m (build O R cx cy)).length = 7 := by
  rw [mergeInto, List.length_zipWith, hm, build_length]
  exact min_self 7

theorem tileCols_length (O : TrigOracle) (R : Rosette) (w spacing rowH : ℚ)
    (row : ℤ) : ∀ (fuel : ℕ) (col : ℤ) (merged : List (List RCmd)),
    merged.length = 7 →
    (tileCols O R w spacing rowH row fuel col merged).length = 7 := by
  intro fuel
  induction fuel with
  | zero => intro col merged hm; exact hm
  | succ n ih =>
    intro col merged hm
    rw [tileCols]
    split_ifs with hc
    · exact ih (col + 1) _ (mergeInto_build_length O R _ _ merged hm)
    · exact hm

theorem tileRows_length (O : TrigOracle) (R : Rosette) (w h spacing rowH : ℚ)
    (xf : ℕ) : ∀ (fuel : ℕ) (row : ℤ) (merged : List (List RCmd)),
    merged.length = 7 →
    (tileRows O R w h spacing rowH xf fuel row merged).length = 7 := by
  intro fuel
  induction fuel with
  | zero => intro row merged hm; exact hm
  | succ n ih =>
    intro row merged hm
    rw [tileRows]
    split_ifs with hc
    · exact ih (row + 1) _ (tileCols_length O R w spacing rowH row xf (-1) merged hm)
    · exact hm

theorem tileCols_count (O : TrigOracle) (R : Rosette) (w spacing rowH : ℚ)
    (row : ℤ) (pi : ℕ) (hpi : pi < 7) :
    ∀ (fuel : ℕ) (col : ℤ) (merged : List (List RCmd)),
    merged.length = 7 →
    (phaseAt (tileCols O R w spacing rowH row fuel col merged) pi).length =
      (phaseAt merged pi).length +
      ((centersCols w spacing rowH row fuel col).map
        (fun c => (phaseAt (build O R c.1 c.2) pi).length)).sum := by
  intro fuel
  induction fuel with
  | zero => intro col merged _; simp [centersCols, tileCols]
  | succ n ih =>
    intro col merged hm
    rw [tileCols, centersCols]
    split_ifs with hc
    · rw [ih (col + 1) _ (mergeInto_build_length O R _ _ merged hm)]
      rw [phaseAt_mergeInto _ _ pi (by omega) (by rw [build_length]; omega)]
      simp [List.length_append]
      omega
    · simp

theorem tileRows_count (O : TrigOracle) (R : Rosette) (w h spacing rowH : ℚ)
    (xf : ℕ) (pi : ℕ) (hpi : pi < 7) :
    ∀ (fuel : ℕ) (row : ℤ) (merged : List (List RCmd)),
    merged.length = 7 →
    (phaseAt (tileRows O R w h spacing rowH xf fuel row merged) pi).length =
      (phaseAt merged pi).length +
      ((centersRows w h spacing rowH xf fuel row).map
        (fun c => (phaseAt (build O R c.1 c.2) pi).length)).sum := by
  intro fuel
  induction fuel with
  | zero => intro row merged _; simp [centersRows, tileRows]
  | succ n ih =>
    intro row merged hm
    rw [tileRows, centersRows]
    split_ifs with hc
    · rw [ih (row + 1) _ (tileCols_length O R w spacing rowH row xf (-1) merged hm)]
      rw [tileCols_count O R w spacing rowH row pi hpi xf (-1) merged hm]
      simp [List.map_append, List.sum_append]
      omega
    · simp

end Rosette

/-- C5.  For every valid configuration (`numPetals ≥ 3`,
`connectEveryN ≥ 1`, `outerRadius > 0`) and every center,
`Rosette.build` returns exactly 7 phases; and for every viewport,
`Rosette.tile` returns exactly 7 merged phases in which the element count
of each phase equals the sum, over all placed motifs, of that phase's
per-motif element count. -/
theorem C5_rosette_phase_counts :
    ∀ (O : TrigOracle) (R : Rosette) (cx cy w h : ℚ) (fuel : ℕ),
      3 ≤ R.numPetals → 1 ≤ R.connectEveryN → 0 < R.outerRadius →
      (Rosette.build O R cx cy).length = 7 ∧
      (Rosette.tile O R w h fuel).length = 7 ∧
      (∀ pi, pi < 7 →
        (Rosette.phaseAt (Rosette.tile O R w h fuel) pi).length =
        ((Rosette.centers O R w h fuel).map
          (fun c => (Rosette.phaseAt (Rosette.build O R c.1 c.2) pi).length)).sum) := by
  intro O R cx cy w h fuel _ _ _
  refine ⟨rfl, ?_, ?_⟩
  · exact Rosette.tileRows_length O R w h _ _ fuel fuel (-1) _ (by simp)
  · intro pi hpi
    have h := Rosette.tileRows_count O R w h (R.outerRadius * (208 / 100))
      (R.outerRadius * (208 / 100) * O.sqrt3 / 2) fuel pi hpi fuel (-1)
      (List.replicate 7 []) (by simp)
    have hz : (Rosette.phaseAt (List.replicate 7 ([] : List Rosette.RCmd)) pi).length = 0 := by
      interval_cases pi <;> rfl
    rw [Rosette.tile, Rosette.centers]
    rw [h, hz]
    omega

/-- Witness for C5 at a concrete oracle and configuration: 4 petals,
skip 1, outer radius 100, a 50-by-50 viewport and fuel 3. -/
theorem C5_witness :
    (Rosette.build ⟨fun _ => 1, fun _ => 0, fun _ _ => 0, fun _ _ => 0, 3, 2⟩
      ⟨4, 1, 100⟩ 0 0).length = 7 ∧
    (Rosette.tile ⟨fun _ => 1, fun _ => 0, fun _ _ => 0, fun _ _ => 0, 3, 2⟩
      ⟨4, 1, 100⟩ 50 50 3).length = 7 ∧
    (∀ pi, pi < 7 →
      (Rosette.phaseAt (Rosette.tile
        ⟨fun _ => 1, fun _ => 0, fun _ _ => 0, fun _ _ => 0, 3, 2⟩
        ⟨4, 1, 100⟩ 50 50 3) pi).length =
      ((Rosette.centers ⟨fun _ => 1, fun _ => 0, fun _ _ => 0, fun _ _ => 0, 3, 2⟩
          ⟨4, 1, 100⟩ 50 50 3).map
        (fun c => (Rosette.phaseAt (Rosette.build
          ⟨fun _ => 1, fun _ => 0, fun _ _ => 0, fun _ _ => 0, 3, 2⟩
          ⟨4, 1, 100⟩ c.1 c.2) pi).length)).sum) :=
  C5_rosette_phase_counts ⟨fun _ => 1, fun _ => 0, fun _ _ => 0, fun _ _ => 0, 3, 2⟩
    ⟨4, 1, 100⟩ 0 0 50 50 3 (by norm_num) (by norm_num) (by norm_num)

namespace Rosette

/-- Characterization of the farthest-admitted-tip fold: starting from any
accumulator, either no candidate beats the accumulator (every admitted
tip in the list is at distance at most the accumulated one, and the fold
returns the accumulator unchanged), or the fold returns an admitted
candidate of maximal distance among the admitted ones, strictly beating
the accumulator. -/
theorem tipFold_char (O : TrigOracle) (cx cy ap dr : ℚ) :
    ∀ (l : List ExtSeg) (acc : Option Pt × ℚ),
      (l.foldl (tipStep O cx cy ap dr) acc = acc ∧
        ∀ e ∈ l, tipWithin (tipDelta O cx cy ap e.tip) dr = true →
          tipDist O cx cy e.tip ≤ acc.2) ∨
      (∃ e ∈ l, tipWithin (tipDelta O cx cy ap e.tip) dr = true ∧
        l.foldl (tipStep O cx cy ap dr) acc =
          (some e.tip, tipDist O cx cy e.tip) ∧
        acc.2 < tipDist O cx cy e.tip ∧
        ∀ f ∈ l, tipWithin (tipDelta O cx cy ap f.tip) dr = true →
          tipDist O cx cy f.tip ≤ tipDist O cx cy e.tip) := by
  intro l
  induction l with
  | nil => intro acc; exact Or.inl ⟨rfl, by simp⟩
  | cons e l ih =>
    intro acc
    by_cases ha : tipWithin (tipDelta O cx cy ap e.tip) dr = true
    · by_cases hlt : acc.2 < tipDist O cx cy e.tip
      · have hstep : tipStep O cx cy ap dr acc e =
            (some e.tip, tipDist O cx cy e.tip) := by
          rw [tipStep, if_pos ha, if_pos hlt]
        rw [List.foldl_cons, hstep]
        rcases ih (some e.tip, tipDist O cx cy e.tip) with ⟨heq, hle⟩ |
          ⟨f, hfmem, hfa, heq, hflt, hfmax⟩
        · refine Or.inr ⟨e, List.mem_cons_self e l, ha, ?_, hlt, ?_⟩
          · rw [heq]
          · intro f hf hfa
            rcases List.mem_cons.mp hf with rfl | hf'
            · exact le_rfl
            · exact hle f hf' hfa
        · refine Or.inr ⟨f, List.mem_cons_of_mem e hfmem, hfa, heq, ?_, ?_⟩
          · exact lt_trans hlt hflt
          · intro g hg hga
            rcases List.mem_cons.mp hg with rfl | hg'
            · exact le_of_lt hflt
            · exact hfmax g hg' hga
      · have hstep : tipStep O cx cy ap dr acc e = acc := by
          rw [tipStep, if_pos ha, if_neg hlt]
        rw [List.foldl_cons, hstep]
        rcases ih acc with ⟨heq, hle⟩ | ⟨f, hfmem, hfa, heq, hflt, hfmax⟩
        · refine Or.inl ⟨heq, ?_⟩
          intro f hf hfa
          rcases List.mem_cons.mp hf with rfl | hf'
          · exact not_lt.mp hlt
          · exact hle f hf' hfa
        · refine Or.inr ⟨f, List.mem_cons_of_mem e hfmem, hfa, heq, hflt, ?_⟩
          intro g hg hga
          rcases List.mem_cons.mp hg with rfl | hg'
          · exact le_trans (not_lt.mp hlt) (le_of_lt hflt)
          · exact hfmax g hg' hga
    · have hstep : tipStep O cx cy ap dr acc e = acc := by
        rw [tipStep, if_neg ha]
      rw [List.foldl_cons, hstep]
      rcases ih acc with ⟨heq, hle⟩ | ⟨f, hfmem, hfa, heq, hflt, hfmax⟩
      · refine Or.inl ⟨heq, ?_⟩
        intro f hf hfa
        rcases List.mem_cons.mp hf with rfl | hf'
        · exact absurd hfa ha
        · exact hle f hf' hfa
      · refine Or.inr ⟨f, List.mem_cons_of_mem e hfmem, hfa, heq, hflt, ?_⟩
        intro g hg hga
        rcases List.mem_cons.mp hg with rfl | hg'
        · exact absurd hga ha
        · exact hfmax g hg' hga

end Rosette

/-- C6 (amended).  In `Rosette.build`, the petal of angular sector `i` is
formed from the intersection of the two diagonals bounding that sector
(`diagLines[i]` and `diagLines[n+i]`); the petal is omitted when they do
not intersect; otherwise its points are the inner vertex, the two
adjacent middle-circle points and, if present, the farthest
diagonal-extension tip admitted by the angular test
`delta < dRad * 0.6` — a tolerance of 0.6 times the FULL sector angle
(1.2 times the half-angle), not 0.6 times the half-angle; so every
emitted petal has exactly 3 or 4 points, and with zero admitted
candidates of positive distance the tip is silently omitted while with
several the farthest is picked. -/
theorem C6_rosette_petals :
    ∀ (O : TrigOracle) (R : Rosette) (cx cy : ℚ),
      (∀ pts ∈ Rosette.petals O R cx cy, pts.length = 3 ∨ pts.length = 4) ∧
      (∀ i : ℕ,
        (lineIntersect (Rosette.cwDiag O R cx cy i).x1
            (Rosette.cwDiag O R cx cy i).y1 (Rosette.cwDiag O R cx cy i).x2
            (Rosette.cwDiag O R cx cy i).y2 (Rosette.ccwDiag O R cx cy i).x1
            (Rosette.ccwDiag O R cx cy i).y1 (Rosette.ccwDiag O R cx cy i).x2
            (Rosette.ccwDiag O R cx cy i).y2 = none →
          Rosette.petalAt O R cx cy i = none) ∧
        (∀ pts, Rosette.petalAt O R cx cy i = some pts →
          ∃ v, lineIntersect (Rosette.cwDiag O R cx cy i).x1
              (Rosette.cwDiag O R cx cy i).y1 (Rosette.cwDiag O R cx cy i).x2
              (Rosette.cwDiag O R cx cy i).y2 (Rosette.ccwDiag O R cx cy i).x1
              (Rosette.ccwDiag O R cx cy i).y1 (Rosette.ccwDiag O R cx cy i).x2
              (Rosette.ccwDiag O R cx cy i).y2 = some v ∧
            ((pts = [v, Rosette.middlePt O R cx cy i,
                Rosette.middlePt O R cx cy ((i + 1) % R.numPetals)] ∧
              ∀ e ∈ Rosette.diagExt O R cx cy,
                Rosette.tipWithin (Rosette.tipDelta O cx cy
                  (Rosette.dRad O R * ((i : ℚ) + 1 / 2)) e.tip)
                  (Rosette.dRad O R) = true →
                Rosette.tipDist O cx cy e.tip ≤ 0) ∨
             (∃ e ∈ Rosette.diagExt O R cx cy,
                Rosette.tipWithin (Rosette.tipDelta O cx cy
                  (Rosette.dRad O R * ((i : ℚ) + 1 / 2)) e.tip)
                  (Rosette.dRad O R) = true ∧
                0 < Rosette.tipDist O cx cy e.tip ∧
                pts = [v, Rosette.middlePt O R cx cy i, e.tip,
                  Rosette.middlePt O R cx cy ((i + 1) % R.numPetals)] ∧
                ∀ f ∈ Rosette.diagExt O R cx cy,
                  Rosette.tipWithin (Rosette.tipDelta O cx cy
                    (Rosette.dRad O R * ((i : ℚ) + 1 / 2)) f.tip)
                    (Rosette.dRad O R) = true →
                  Rosette.tipDist O cx cy f.tip ≤
                    Rosette.tipDist O cx cy e.tip)))) := by
  intro O R cx cy
  have key : ∀ i : ℕ,
      (lineIntersect (Rosette.cwDiag O R cx cy i).x1
          (Rosette.cwDiag O R cx cy i).y1 (Rosette.cwDiag O R cx cy i).x2
          (Rosette.cwDiag O R cx cy i).y2 (Rosette.ccwDiag O R cx cy i).x1
          (Rosette.ccwDiag O R cx cy i).y1 (Rosette.ccwDiag O R cx cy i).x2
          (Rosette.ccwDiag O R cx cy i).y2 = none →
        Rosette.petalAt O R cx cy i = none) ∧
      (∀ pts, Rosette.petalAt O R cx cy i = some pts →
        ∃ v, lineIntersect (Rosette.cwDiag O R cx cy i).x1
            (Rosette.cwDiag O R cx cy i).y1 (Rosette.cwDiag O R cx cy i).x2
            (Rosette.cwDiag O R cx cy i).y2 (Rosette.ccwDiag O R cx cy i).x1
            (Rosette.ccwDiag O R cx cy i).y1 (Rosette.ccwDiag O R cx cy i).x2
            (Rosette.ccwDiag O R cx cy i).y2 = some v ∧
          ((pts = [v, Rosette.middlePt O R cx cy i,
              Rosette.middlePt O R cx cy ((i + 1) % R.numPetals)] ∧
            ∀ e ∈ Rosette.diagExt O R cx cy,
              Rosette.tipWithin (Rosette.tipDelta O cx cy
                (Rosette.dRad O R * ((i : ℚ) + 1 / 2)) e.tip)
                (Rosette.dRad O R) = true →
              Rosette.tipDist O cx cy e.tip ≤ 0) ∨
           (∃ e ∈ Rosette.diagExt O R cx cy,
              Rosette.tipWithin (Rosette.tipDelta O cx cy
                (Rosette.dRad O R * ((i : ℚ) + 1 / 2)) e.tip)
                (Rosette.dRad O R) = true ∧
              0 < Rosette.tipDist O cx cy e.tip ∧
              pts = [v, Rosette.middlePt O R cx cy i, e.tip,
                Rosette.middlePt O R cx cy ((i + 1) % R.numPetals)] ∧
              ∀ f ∈ Rosette.diagExt O R cx cy,
                Rosette.tipWithin (Rosette.tipDelta O cx cy
                  (Rosette.dRad O R * ((i : ℚ) + 1 / 2)) f.tip)
                  (Rosette.dRad O R) = true →
                Rosette.tipDist O cx cy f.tip ≤
                  Rosette.tipDist O cx cy e.tip))) := by
    intro i
    cases hline : lineIntersect (Rosette.cwDiag O R cx cy i).x1
        (Rosette.cwDiag O R cx cy i).y1 (Rosette.cwDiag O R cx cy i).x2
        (Rosette.cwDiag O R cx cy i).y2 (Rosette.ccwDiag O R cx cy i).x1
        (Rosette.ccwDiag O R cx cy i).y1 (Rosette.ccwDiag O R cx cy i).x2
        (Rosette.ccwDiag O R cx cy i).y2 with
    | none =>
      refine ⟨fun _ => Rosette.petalAt_none O R cx cy i hline, fun pts hp => ?_⟩
      rw [Rosette.petalAt_none O R cx cy i hline] at hp
      simp at hp
    | some v =>
      refine ⟨fun hn => absurd hn (by simp), fun pts hp => ?_⟩
      rw [Rosette.petalAt_some O R cx cy i v hline] at hp
      refine ⟨v, rfl, ?_⟩
      rcases Rosette.tipFold_char O cx cy
          (Rosette.dRad O R * ((i : ℚ) + 1 / 2)) (Rosette.dRad O R)
          (Rosette.diagExt O R cx cy) (none, 0) with
        ⟨heq, hle⟩ | ⟨e, hmem, ha, heq, hlt, hmax⟩
      · left
        rw [heq] at hp
        have hpts := (Option.some.inj hp).symm
        refine ⟨?_, hle⟩
        rw [hpts]
        rfl
      · right
        rw [heq] at hp
        have hpts := (Option.some.inj hp).symm
        refine ⟨e, hmem, ha, hlt, ?_, hmax⟩
        rw [hpts]
        rfl
  refine ⟨?_, key⟩
  intro pts hmem
  obtain ⟨i, _, hp⟩ := List.mem_filterMap.mp hmem
  obtain ⟨v, _, hcase⟩ := (key i).2 pts hp
  rcases hcase with ⟨hpts, _⟩ | ⟨e, _, _, _, hpts, _⟩
  · left; rw [hpts]; rfl
  · right; rw [hpts]; rfl

/-- Counterexample for C6 as stated: the admission predicate used by the
petal construction accepts a candidate at angular distance 1/2 from the
sector bisector when the full sector angle is 1 (since 1/2 < 0.6), while
the tolerance claimed — 0.6 times the sector HALF-angle, that is 0.3 —
rejects it.  The code tolerance is `dRad * 0.6`, not `(dRad/2) * 0.6`. -/
theorem C6_counterexample :
    Rosette.tipWithin (1 / 2) 1 = true ∧
    Rosette.tipWithinSpec (1 / 2) 1 = false := by
  constructor <;> with_unfolding_all decide
